import Mathlib

/-!
# Asynchronous greeter: server state machine and concurrent test client

A shallow embedding of

* `hello_world_async_api/server/greeter_async_server.cpp`
  (`ServerImpl::CallData`, `ServerImpl::HandleRpcs`), and
* `hello_world_async_api/concurrent_test_client/concurrent_test_client.cpp`
  (`AsyncGreeterClient::SendConcurrentRequests`, `AsyncGreeterClient::ProcessResponses`).

Heap objects are addressed by natural numbers; an address is the tag of the
operations armed by the object living there. The gRPC runtime is the environment:
its completion queue is a script of results of `Next`, consumed in order.
-/

namespace GreeterServer

/-- The enum `CallStatus` of `CallData`. -/
inductive CallStatus where
  | CREATE
  | PROCESS
  | FINISH
  deriving DecidableEq

/-- The data members of `CallData` that the state machine reads or writes:
`request_` stands for `request_.name()`, `reply_` for `reply_.message()`. -/
structure CallData where
  request_ : String
  reply_ : String
  status_ : CallStatus
  deriving DecidableEq

/-- An asynchronous operation armed on the completion queue, with its tag. -/
inductive Op where
  | RequestSayHello (tag : Nat)
  | Finish (tag : Nat) (message : String)
  deriving DecidableEq

/-- The tag an operation was armed with. -/
def Op.tag : Op → Nat
  | .RequestSayHello tag => tag
  | .Finish tag _ => tag

/-- The effects of the server code, in program order. -/
inductive Action where
  | new (a : Nat)
  | arm (op : Op)
  | delete (a : Nat)
  deriving DecidableEq

/-- The instance an action is about. -/
def Action.subject : Action → Nat
  | .new a => a
  | .arm op => op.tag
  | .delete a => a

/-- The server: the heap of `CallData` instances (`none` is a freed slot), the
operations armed on `cq_` and not yet completed, and the effects so far. -/
structure ServerState where
  heap : List (Option CallData)
  pending : List Op
  trace : List Action
  deriving DecidableEq

/-- Nothing allocated, nothing armed. -/
def ServerState.init : ServerState := ⟨[], [], []⟩

/-- The member initialisers of the constructor: empty buffers, `status_(CREATE)`. -/
def CallData.fresh : CallData := ⟨"", "", .CREATE⟩

/-- The allocation done by `new CallData`: a fresh address, one past every address
handed out so far. -/
def alloc (s : ServerState) : ServerState :=
  { s with heap := s.heap ++ [some CallData.fresh], trace := s.trace ++ [.new s.heap.length] }

/-- The branch `status_ == CREATE` of `Proceed`: `status_ = PROCESS`, then
`RequestSayHello(..., this)`. -/
def ProceedCREATE (s : ServerState) (this : Nat) (c : CallData) : ServerState :=
  { heap := s.heap.set this (some { c with status_ := .PROCESS })
    pending := s.pending ++ [.RequestSayHello this]
    trace := s.trace ++ [.arm (.RequestSayHello this)] }

/-- The expression `new CallData(service_, cq_)`: allocation, member initialisers, and the
constructor body, which calls `Proceed()` on the new instance; its status is `CREATE`, so
that call is the `CREATE` branch (`construct_eq_Proceed` below). -/
def construct (s : ServerState) : ServerState :=
  ProceedCREATE (alloc s) s.heap.length CallData.fresh

/-- The method `CallData::Proceed`, called on the instance at address `this`. In the
`PROCESS` branch the sibling is constructed first (it touches only its own, new, slot),
then the reply is set from the request, the status becomes `FINISH` and `Finish` is armed.
The last branch is the `else` of the source, whose `CHECK_EQ(status_, FINISH)` holds since
`FINISH` is the only status left. The result is `none` when no live instance is at `this`
(the call would be a use after free). -/
def Proceed (s : ServerState) (this : Nat) : Option ServerState :=
  match s.heap[this]? with
  | some (some c) =>
    match c.status_ with
    | .CREATE => some (ProceedCREATE s this c)
    | .PROCESS =>
      let s1 := construct s
      let message := "Hello " ++ c.request_
      some
        { heap := s1.heap.set this (some { c with reply_ := message, status_ := .FINISH })
          pending := s1.pending ++ [.Finish this message]
          trace := s1.trace ++ [.arm (.Finish this message)] }
    | .FINISH =>
      some { s with heap := s.heap.set this none, trace := s.trace ++ [.delete this] }
  | _ => none

/-- One result of `cq_->Next(&tag, &ok)`: `shutdown` is the return value `false`; `event`
is the return value `true`, where `pick` chooses which of the armed operations completed,
`ok` is the success flag, and `name` is the name of the incoming request, used when the
completed operation is a `RequestSayHello`. -/
inductive NextResult where
  | shutdown
  | event (pick : Nat) (ok : Bool) (name : String)
  deriving DecidableEq

/-- What the runtime does to the server's memory when the operation `op`, armed at position
`i`, completes: the operation is no longer armed, and a successful `RequestSayHello` has
filled the request buffer of the instance it is tagged with. -/
def complete (s : ServerState) (i : Nat) (op : Op) (ok : Bool) (name : String) : ServerState :=
  { s with
    pending := s.pending.eraseIdx i
    heap :=
      match op, ok with
      | .RequestSayHello tag, true =>
        match s.heap[tag]? with
        | some (some c) => s.heap.set tag (some { c with request_ := name })
        | _ => s.heap
      | _, _ => s.heap }

/-- The two `CHECK`s of the loop body. -/
inductive Check where
  | next
  | ok
  deriving DecidableEq

/-- How far `HandleRpcs` got. `running` is the end of one iteration of `while (true)`;
`waiting` is a call of `Next` that blocks because the runtime has nothing to deliver;
`aborted` is a failed `CHECK`; `undefined` is a `Proceed` on a dead instance;
`returned` is a normal return of the function. -/
inductive Outcome where
  | running (s : ServerState)
  | waiting (s : ServerState)
  | aborted (check : Check) (s : ServerState)
  | undefined
  | returned (s : ServerState)
  deriving DecidableEq

/-- The body of `while (true)` in `HandleRpcs`, given the result of `Next`:
`CHECK(cq_->Next(&tag, &ok)); CHECK(ok); static_cast<CallData*>(tag)->Proceed();`. -/
def iteration (r : NextResult) (s : ServerState) : Outcome :=
  match r with
  | .shutdown => .aborted .next s
  | .event pick ok name =>
    match s.pending[pick % s.pending.length]? with
    | none => .waiting s
    | some op =>
      let s1 := complete s (pick % s.pending.length) op ok name
      if ok then
        match Proceed s1 op.tag with
        | some s2 => .running s2
        | none => .undefined
      else .aborted .ok s1

/-- The loop `while (true)` of `HandleRpcs` against a script of results of `Next`. When
the script is used up the loop is blocked in `Next`. -/
def HandleRpcsLoop : List NextResult → ServerState → Outcome
  | [], s => .waiting s
  | r :: rest, s =>
    match iteration r s with
    | .running s1 => HandleRpcsLoop rest s1
    | o => o

/-- The state in which `HandleRpcs` enters its loop: `new CallData(&service_, cq_.get())`. -/
def bootstrap : ServerState := construct ServerState.init

/-- The method `ServerImpl::HandleRpcs`. -/
def HandleRpcs (script : List NextResult) : Outcome :=
  HandleRpcsLoop script bootstrap

/-- One step of the server: the loop body run on a successful completion event. -/
def Step (s s1 : ServerState) : Prop :=
  ∃ pick name, iteration (.event pick true name) s = .running s1

/-- The states of the server at the head of the loop of `HandleRpcs`. -/
inductive Reachable : ServerState → Prop where
  | boot : Reachable bootstrap
  | step {s s1 : ServerState} : Reachable s → Step s s1 → Reachable s1

/-- The operations armed with tag `a`. -/
def pendingOf (s : ServerState) (a : Nat) : List Op :=
  s.pending.filter (fun op => op.tag == a)

/-- The effects that are about instance `a`. -/
def traceOf (s : ServerState) (a : Nat) : List Action :=
  s.trace.filter (fun x => x.subject == a)

/-- Where instance `a` is in its life, read off the heap, together with the operations it
has armed and the effects about it so far: never allocated; waiting for a request, with its
`RequestSayHello` armed; replying, with its `Finish` armed; released. -/
def Lifecycle (s : ServerState) (a : Nat) : Prop :=
  match s.heap[a]? with
  | none => pendingOf s a = [] ∧ traceOf s a = []
  | some none =>
    pendingOf s a = [] ∧
      ∃ m, traceOf s a
        = [.new a, .arm (.RequestSayHello a), .arm (.Finish a m), .delete a]
  | some (some c) =>
    (c.status_ = .PROCESS ∧ pendingOf s a = [.RequestSayHello a] ∧
        traceOf s a = [.new a, .arm (.RequestSayHello a)]) ∨
      (c.status_ = .FINISH ∧ c.reply_ = "Hello " ++ c.request_ ∧
        pendingOf s a = [.Finish a c.reply_] ∧
        traceOf s a = [.new a, .arm (.RequestSayHello a), .arm (.Finish a c.reply_)])

/-- The number of calls of `Proceed` on instance `a` so far: each call has exactly one effect
about `a` (it arms one operation tagged `a`, or deletes `a`), and `new` is the only other
effect about `a`. -/
def proceedCalls (s : ServerState) (a : Nat) : Nat :=
  ((traceOf s a).filter (fun x => x != .new a)).length

/-- The replies sent by instance `a` so far: the messages of the `Finish` operations it
armed. -/
def replies (s : ServerState) (a : Nat) : List String :=
  (traceOf s a).filterMap (fun x =>
    match x with
    | .arm (.Finish _ m) => some m
    | _ => none)

/-- The loop body run on each of the successful events `(pick, name)` of a list, once and
in order, leads from the first state to the second. -/
def processes : List (Nat × String) → ServerState → ServerState → Prop
  | [], s, s1 => s = s1
  | e :: rest, s, s1 =>
    ∃ s2, iteration (.event e.1 true e.2) s = .running s2 ∧ processes rest s2 s1

/-- The instance at `a` is live and waits for an incoming request. -/
def Waiting (s : ServerState) (a : Nat) : Prop :=
  ∃ c, s.heap[a]? = some (some c) ∧ c.status_ = .PROCESS ∧ Op.RequestSayHello a ∈ s.pending

end GreeterServer

namespace GreeterClient

/-- The largest value of `int`. -/
def INT_MAX : Int := 2147483647

/-- The smallest value of `int`. -/
def INT_MIN : Int := -2147483648

/-- The largest value of `long long`. -/
def LLONG_MAX : Int := 9223372036854775807

/-- The smallest value of `long long`. -/
def LLONG_MIN : Int := -9223372036854775808

/-- Arithmetic of `std::atomic<int>`: the result wraps around in two's complement. -/
def wrap32 (x : Int) : Int := (x + 2147483648) % 4294967296 - 2147483648

/-- Arithmetic of `std::atomic<long long>`: the result wraps around in two's complement. -/
def wrap64 (x : Int) : Int := (x + 9223372036854775808) % 18446744073709551616 - 9223372036854775808

/-- The conversion `duration_cast<milliseconds>` of a `steady_clock` duration, which counts
nanoseconds: the quotient is truncated toward zero. -/
def duration_cast_ms (d : Int) : Int := Int.tdiv d 1000000

/-- A `double` computed by one division of two integers. The operands are kept, so the
quotient is not rounded. -/
structure DoubleQuot where
  num : Int
  den : Int
  deriving DecidableEq

/-- The exact quotient, when the divisor is not zero. -/
def DoubleQuot.value (q : DoubleQuot) : Option ℚ :=
  if q.den = 0 then none else some ((q.num : ℚ) / (q.den : ℚ))

/-- The class `grpc::Status`: code `0` is `OK`. -/
structure Status where
  error_code : Nat
  error_message : String
  deriving DecidableEq

/-- The method `Status::ok()`. -/
def Status.ok (st : Status) : Bool := st.error_code == 0

/-- The struct `AsyncCallData` together with the three buffers it owns: `reply` stands for
`reply->message()` and `status` for `*status`; `context` carries no data. The four objects
are allocated together and deleted together, so one heap slot stands for the four. The two
references `completed_count` and `success_count` are never used and are left out.
The field `start_time` is a reading of `steady_clock`, in nanoseconds. -/
structure AsyncCallData where
  request_id : Int
  start_time : Int
  reply : String
  status : Status
  deriving DecidableEq

/-- Why a call is reported as failed: the text printed after `failed: `. -/
inductive Failure where
  | operationNotOk
  | status (error_code : Nat) (error_message : String)
  deriving DecidableEq

/-- The effects of the client code, in program order: a call started with its tag, an
event taken from the queue, the two updates of the aggregates made for a successful call
(`succeeded`, with the elapsed time added to `total_latency_ms_`), the line printed for a
failed call, the four `delete`s of a record, and the line printed on shutdown. -/
inductive Action where
  | submit (tag : Nat) (request_id : Int) (name : String)
  | drained (tag : Nat) (ok : Bool)
  | succeeded (request_id : Int) (took : Int)
  | failed (request_id : Int) (why : Failure) (took : Int)
  | delete (tag : Nat)
  | shutdown
  deriving DecidableEq

/-- The client: the members `success_count_` and `total_latency_ms_`, the heap of per-call
records (`none` is a released slot), the tags of the calls in flight on `cq_`, the number
of readings of `steady_clock` taken so far, and the effects so far. -/
structure Client where
  success_count_ : Int
  total_latency_ms_ : Int
  heap : List (Option AsyncCallData)
  pending : List Nat
  clock_reads : Nat
  trace : List Action
  deriving DecidableEq

/-- The client as its constructor leaves it: `success_count_{0}`, `total_latency_ms_{0}`,
nothing allocated, nothing in flight. -/
def Client.fresh : Client := ⟨0, 0, [], [], 0, []⟩

/-- One result of `cq_.Next(&got_tag, &ok)`: `shutdown` is the return value `false`;
`event` is the return value `true`, where `pick` chooses which of the calls in flight
completed, `ok` is the success flag, and `status` and `message` are what the runtime wrote
to the status and reply buffers of that call. -/
inductive NextResult where
  | shutdown
  | event (pick : Nat) (ok : Bool) (status : Status) (message : String)
  deriving DecidableEq

/-- The result of a run: a normal return, a call of `Next` that blocks because the runtime
has nothing to deliver, or the use of a record that is not live. -/
inductive Outcome (α : Type) where
  | returned (a : α)
  | waiting (c : Client)
  | undefined
  deriving DecidableEq

/-- One iteration of the `for` loop of `SendConcurrentRequests`, lines 66 to 86: the
buffers and the record are allocated, the start time is read, and the call is started
with the record as the tag of its `Finish`. -/
def sendOne (clock : Nat → Int) ( name_prefix : String) (c : Client) (i : Int) : Client :=
  { c with
    heap := c.heap ++ [some ⟨i, clock c.clock_reads, "", ⟨0, ""⟩⟩]
    pending := c.pending ++ [c.heap.length]
    clock_reads := c.clock_reads + 1
    trace := c.trace ++ [.submit c.heap.length i ( name_prefix ++ "_" ++ toString i)] }

/-- The loop `for (int i = 0; i < num_requests; i++)` of `SendConcurrentRequests`. -/
def sendAll (clock : Nat → Int) ( name_prefix : String) (num_requests : Int) (c : Client) :
    Client :=
  (List.range num_requests.toNat).foldl
    (fun (c : Client) (i : Nat) => sendOne clock name_prefix c (i : Int)) c

/-- What the runtime does to the client's memory when the call in flight at position `i`,
tagged `tag`, completes: the call is no longer in flight, and its status and reply buffers
are filled. -/
def complete (c : Client) (i : Nat) (tag : Nat) (status : Status) (message : String) :
    Client :=
  { c with
    pending := c.pending.eraseIdx i
    heap :=
      match c.heap[tag]? with
      | some (some call_data) =>
        c.heap.set tag (some { call_data with status := status, reply := message })
      | _ => c.heap }

/-- The event is counted as a success: `ok && call_data->status->ok()`. -/
def succeeded (ok : Bool) (call_data : AsyncCallData) : Bool :=
  ok && call_data.status.ok

/-- Lines 141 to 168 of `ProcessResponses`: the record is recovered from the tag, the
elapsed time is computed, the call is counted or reported as failed, and the record and its
buffers are deleted. The result is `none` when no live record is at `got_tag`. -/
def finalize (clock : Nat → Int) (c : Client) (got_tag : Nat) (ok : Bool) : Option Client :=
  match c.heap[got_tag]? with
  | some (some call_data) =>
    let duration := duration_cast_ms (clock c.clock_reads - call_data.start_time)
    let c1 : Client := { c with clock_reads := c.clock_reads + 1 }
    let c2 : Client :=
      if succeeded ok call_data then
        { c1 with
          success_count_ := wrap32 (c1.success_count_ + 1)
          total_latency_ms_ := wrap64 (c1.total_latency_ms_ + duration)
          trace := c1.trace ++ [.succeeded call_data.request_id duration] }
      else
        { c1 with
          trace := c1.trace ++
            [.failed call_data.request_id
              (if !ok then .operationNotOk
               else .status call_data.status.error_code call_data.status.error_message)
              duration] }
    some { c2 with heap := c2.heap.set got_tag none, trace := c2.trace ++ [.delete got_tag] }
  | _ => none

/-- The body of the loop of `ProcessResponses` once `Next` has returned `true`: the
runtime has completed the call chosen by `pick`, and lines 139 to 168 run on its tag. -/
def receive (clock : Nat → Int) (c : Client) (pick : Nat) (ok : Bool) (status : Status)
    (message : String) : Outcome Client :=
  match c.pending[pick % c.pending.length]? with
  | none => .waiting c
  | some got_tag =>
    let c1 := complete c (pick % c.pending.length) got_tag status message
    let c2 := { c1 with trace := c1.trace ++ [.drained got_tag ok] }
    match finalize clock c2 got_tag ok with
    | some c3 => .returned c3
    | none => .undefined

/-- The loop `while (received_count < expected_responses)` of `ProcessResponses` against a
script of results of `Next`. When the script is used up a further call of `Next` blocks.
The increment of `received_count` stays below `expected_responses`, an `int`, so it does
not overflow. -/
def ProcessResponsesLoop (clock : Nat → Int) (expected_responses : Int) :
    List NextResult → Int → Client → Outcome Client
  | [], received_count, c =>
    if received_count < expected_responses then .waiting c else .returned c
  | r :: rest, received_count, c =>
    if received_count < expected_responses then
      match r with
      | .shutdown => .returned { c with trace := c.trace ++ [.shutdown] }
      | .event pick ok status message =>
        match receive clock c pick ok status message with
        | .returned c3 =>
          ProcessResponsesLoop clock expected_responses rest (received_count + 1) c3
        | o => o
    else .returned c

/-- The method `AsyncGreeterClient::ProcessResponses`: `received_count` starts at `0`. -/
def ProcessResponses (clock : Nat → Int) (script : List NextResult) (expected_responses : Int)
    (c : Client) : Outcome Client :=
  ProcessResponsesLoop clock expected_responses script 0 c

/-- The figures printed at the end of `SendConcurrentRequests`, lines 99 to 110. A line
that is not printed is `none`. -/
structure Summary where
  total_time : Int
  total_requests : Int
  success_rate : DoubleQuot
  average_latency : Option Int
  requests_per_second : Option DoubleQuot
  failed_requests : Option Int
  deriving DecidableEq

/-- Lines 94 to 111 of `SendConcurrentRequests`: the summary computed from the members
and the total duration in milliseconds. -/
def summarize (c : Client) (num_requests : Int) (total_duration : Int) : Summary :=
  { total_time := total_duration
    total_requests := num_requests
    success_rate := ⟨c.success_count_ * 100, num_requests⟩
    average_latency :=
      if c.success_count_ > 0 then some (Int.tdiv c.total_latency_ms_ c.success_count_)
      else none
    requests_per_second :=
      if c.success_count_ > 0 then some ⟨c.success_count_ * 1000, total_duration⟩ else none
    failed_requests :=
      if c.success_count_ < num_requests then some (num_requests - c.success_count_)
      else none }

/-- The method `AsyncGreeterClient::SendConcurrentRequests`. -/
def SendConcurrentRequests (clock : Nat → Int) (script : List NextResult)
    ( name_prefix : String) (num_requests : Int) (c : Client) : Outcome (Client × Summary) :=
  let start_time := clock c.clock_reads
  let c1 := sendAll clock name_prefix num_requests { c with clock_reads := c.clock_reads + 1 }
  match ProcessResponses clock script num_requests c1 with
  | .returned c2 =>
    let total_duration := duration_cast_ms (clock c2.clock_reads - start_time)
    let c3 := { c2 with clock_reads := c2.clock_reads + 1 }
    .returned (c3, summarize c3 num_requests total_duration)
  | .waiting c2 => .waiting c2
  | .undefined => .undefined

/-- The event is one that `ProcessResponses` counts as a success. -/
def NextResult.success : NextResult → Bool
  | .shutdown => false
  | .event _ ok status _ => ok && status.ok

/-- The action is the start of a call. -/
def Action.isSubmit : Action → Bool
  | .submit _ _ _ => true
  | _ => false

/-- The action is an event taken from the queue. -/
def Action.isDrained : Action → Bool
  | .drained _ _ => true
  | _ => false

/-- The action is the report of a failed call. -/
def Action.isFailed : Action → Bool
  | .failed _ _ _ => true
  | _ => false

/-- The tags of the records deleted in a trace, in order. -/
def deletedIn (t : List Action) : List Nat :=
  t.filterMap (fun x =>
    match x with
    | .delete tag => some tag
    | _ => none)

/-- The elapsed times of the calls counted as successes in a trace, in order. -/
def latenciesIn (t : List Action) : List Int :=
  t.filterMap (fun x =>
    match x with
    | .succeeded _ took => some took
    | _ => none)

/-- The number of calls reported as failed in a trace. -/
def failuresIn (t : List Action) : Nat := (t.filter Action.isFailed).length

/-- The number of events taken from the queue in a trace. -/
def drainedIn (t : List Action) : Nat := (t.filter Action.isDrained).length

/-- The calls started by a batch of `n` requests on a fresh client, in order. -/
def submitsOf ( name_prefix : String) (n : Nat) : List Action :=
  (List.range n).map
    (fun (i : Nat) => .submit i (i : Int) ( name_prefix ++ "_" ++ toString (i : Int)))

/-- The client after the first phase of a batch of `n` requests on a fresh client, written
out: record `i` lives at address `i`, holds request id `i` and the clock reading number
`i + 1` (reading number `0` is the start of the batch), and is in flight. -/
def started (clock : Nat → Int) ( name_prefix : String) (n : Nat) : Client :=
  { success_count_ := 0
    total_latency_ms_ := 0
    heap := (List.range n).map
      (fun (i : Nat) => some ⟨(i : Int), clock (i + 1), "", ⟨0, ""⟩⟩)
    pending := List.range n
    clock_reads := n + 1
    trace := submitsOf name_prefix n }

/-- The state after one iteration of the drain loop, written out: the event completes the
call in flight at position `i`, whose tag is `tag` and whose record is `r`. -/
def drainStep (clock : Nat → Int) (c : Client) (i tag : Nat) (r : AsyncCallData) (ok : Bool)
    (status : Status) : Client :=
  { success_count_ :=
      if ok && status.ok then wrap32 (c.success_count_ + 1) else c.success_count_
    total_latency_ms_ :=
      if ok && status.ok then
        wrap64 (c.total_latency_ms_ + duration_cast_ms (clock c.clock_reads - r.start_time))
      else c.total_latency_ms_
    heap := c.heap.set tag none
    pending := c.pending.eraseIdx i
    clock_reads := c.clock_reads + 1
    trace := c.trace ++
      [.drained tag ok,
        if ok && status.ok then
          .succeeded r.request_id (duration_cast_ms (clock c.clock_reads - r.start_time))
        else
          .failed r.request_id
            (if !ok then .operationNotOk else .status status.error_code status.error_message)
            (duration_cast_ms (clock c.clock_reads - r.start_time)),
        .delete tag] }

/-- The bookkeeping of a client that started fresh and runs one batch: every tag handed out
is either in flight or deleted once; a tag in flight names a live record that holds its
request id and the clock reading taken when it was started; a deleted tag names a
released slot; and the two aggregates are the number and the (wrapped) sum of the elapsed
times of the calls counted as successes, each of which is a difference of two clock
readings: one taken in the drain phase, minus the one taken when the call was started. -/
structure Inv (clock : Nat → Int) (c : Client) : Prop where
  perm : (deletedIn c.trace ++ c.pending).Perm (List.range c.heap.length)
  live : ∀ tag ∈ c.pending, ∃ r, c.heap[tag]? = some (some r) ∧ r.request_id = (tag : Int) ∧
    r.start_time = clock (tag + 1)
  dead : ∀ tag ∈ deletedIn c.trace, c.heap[tag]? = some none
  count : c.success_count_ = ((latenciesIn c.trace).length : Int)
  total : c.total_latency_ms_ = wrap64 (latenciesIn c.trace).sum
  classified : (latenciesIn c.trace).length + failuresIn c.trace = (deletedIn c.trace).length
  drained : drainedIn c.trace = (deletedIn c.trace).length
  bound : (c.heap.length : Int) ≤ INT_MAX
  reads : c.heap.length < c.clock_reads
  timed : ∀ id took, Action.succeeded id took ∈ c.trace →
    0 ≤ id ∧ id.toNat < c.heap.length ∧
      ∃ k, c.heap.length < k ∧ k < c.clock_reads ∧
        took = duration_cast_ms (clock k - clock (id.toNat + 1))

end GreeterClient

/-! ## The server -/

namespace GreeterServer

theorem construct_heap (s : ServerState) :
    (construct s).heap = s.heap ++ [some ⟨"", "", .PROCESS⟩] := by
  simp [construct, ProceedCREATE, alloc, CallData.fresh]

theorem construct_pending (s : ServerState) :
    (construct s).pending = s.pending ++ [.RequestSayHello s.heap.length] := rfl

theorem construct_trace (s : ServerState) :
    (construct s).trace
      = s.trace ++ [.new s.heap.length, .arm (.RequestSayHello s.heap.length)] := by
  simp [construct, ProceedCREATE, alloc]

/-- The constructor of `CallData` is the allocation followed by `Proceed` on the new
instance. -/
theorem construct_eq_Proceed (s : ServerState) :
    Proceed (alloc s) s.heap.length = some (construct s) := by
  simp [Proceed, alloc, construct, CallData.fresh]

theorem Proceed_CREATE {s : ServerState} {a : Nat} {c : CallData}
    (hlive : s.heap[a]? = some (some c)) (hst : c.status_ = .CREATE) :
    Proceed s a = some (ProceedCREATE s a c) := by
  simp [Proceed, hlive, hst]

theorem Proceed_PROCESS {s : ServerState} {a : Nat} {c : CallData}
    (hlive : s.heap[a]? = some (some c)) (hst : c.status_ = .PROCESS) :
    Proceed s a = some
      { heap := s.heap.set a (some ⟨c.request_, "Hello " ++ c.request_, .FINISH⟩)
          ++ [some ⟨"", "", .PROCESS⟩]
        pending := s.pending ++
          [.RequestSayHello s.heap.length, .Finish a ("Hello " ++ c.request_)]
        trace := s.trace ++
          [.new s.heap.length, .arm (.RequestSayHello s.heap.length),
            .arm (.Finish a ("Hello " ++ c.request_))] } := by
  have hlt : a < s.heap.length := by
    by_contra h
    rw [List.getElem?_eq_none (by omega)] at hlive
    cases hlive
  simp [Proceed, hlive, hst, construct_heap, construct_pending, construct_trace,
    List.set_append, hlt]

theorem Proceed_FINISH {s : ServerState} {a : Nat} {c : CallData}
    (hlive : s.heap[a]? = some (some c)) (hst : c.status_ = .FINISH) :
    Proceed s a = some { s with heap := s.heap.set a none, trace := s.trace ++ [.delete a] } := by
  simp [Proceed, hlive, hst]

theorem lt_of_getElem?_eq_some {α : Type} {l : List α} {i : Nat} {x : α}
    (h : l[i]? = some x) : i < l.length := by
  by_contra hn
  rw [List.getElem?_eq_none (by omega)] at h
  cases h

theorem hello_injective {n m : String} (h : "Hello " ++ n = "Hello " ++ m) : n = m := by
  have hd : ("Hello " ++ n).data = ("Hello " ++ m).data := by rw [h]
  rw [String.data_append, String.data_append] at hd
  exact String.ext (List.append_cancel_left hd)

theorem filter_eraseIdx_of_false {α : Type} (p : α → Bool) :
    ∀ (l : List α) (i : Nat) (x : α), l[i]? = some x → p x = false →
      (l.eraseIdx i).filter p = l.filter p
  | [], _, _, h, _ => by simp at h
  | y :: tl, 0, x, h, hp => by
    simp at h
    subst h
    simp [hp]
  | y :: tl, i + 1, x, h, hp => by
    simp at h
    simp [List.filter_cons, filter_eraseIdx_of_false p tl i x h hp]

theorem filter_eraseIdx_singleton {α : Type} (p : α → Bool) :
    ∀ (l : List α) (i : Nat) (x y : α), l[i]? = some x → p x = true →
      l.filter p = [y] → (l.eraseIdx i).filter p = []
  | [], _, _, _, h, _, _ => by simp at h
  | z :: tl, 0, x, y, h, hp, hf => by
    simp at h
    subst h
    simp [List.filter_cons, hp] at hf
    simpa using hf.2
  | z :: tl, i + 1, x, y, h, hp, hf => by
    simp at h
    by_cases hz : p z = true
    · simp [List.filter_cons, hz] at hf
      have hx : x ∈ tl.filter p := List.mem_filter.mpr ⟨List.getElem?_mem h, hp⟩
      rw [List.filter_eq_nil_iff.mpr (by simpa using hf.2)] at hx
      cases hx
    · simp [List.filter_cons, hz] at hf
      simp [List.filter_cons, hz, filter_eraseIdx_singleton p tl i x y h hp hf]

theorem Lifecycle_congr {s s1 : ServerState} {a : Nat}
    (hh : s1.heap[a]? = s.heap[a]?) (hp : pendingOf s1 a = pendingOf s a)
    (ht : traceOf s1 a = traceOf s a) (h : Lifecycle s a) : Lifecycle s1 a := by
  unfold Lifecycle at *
  rw [hh, hp, ht]
  exact h

/-- Under the lifecycle invariant a successful iteration is one of two transitions: a
waiting instance receives its request, or a replying instance is released. -/
theorem iteration_running_cases {s s1 : ServerState} {pick : Nat} {name : String}
    (inv : ∀ a, Lifecycle s a)
    (h : iteration (.event pick true name) s = .running s1) :
    (∃ t c, s.pending[pick % s.pending.length]? = some (.RequestSayHello t) ∧
        s.heap[t]? = some (some c) ∧ c.status_ = .PROCESS ∧
        s1 = { heap := s.heap.set t (some ⟨name, "Hello " ++ name, .FINISH⟩)
                 ++ [some ⟨"", "", .PROCESS⟩]
               pending := s.pending.eraseIdx (pick % s.pending.length) ++
                 [.RequestSayHello s.heap.length, .Finish t ("Hello " ++ name)]
               trace := s.trace ++
                 [.new s.heap.length, .arm (.RequestSayHello s.heap.length),
                   .arm (.Finish t ("Hello " ++ name))] }) ∨
      (∃ t c, s.pending[pick % s.pending.length]? = some (.Finish t c.reply_) ∧
        s.heap[t]? = some (some c) ∧ c.status_ = .FINISH ∧
        s1 = { heap := s.heap.set t none
               pending := s.pending.eraseIdx (pick % s.pending.length)
               trace := s.trace ++ [.delete t] }) := by
  unfold iteration at h
  simp only at h
  cases hop : s.pending[pick % s.pending.length]? with
  | none => rw [hop] at h; simp at h
  | some op =>
    rw [hop] at h
    simp only [if_true] at h
    have hmem : op ∈ pendingOf s op.tag :=
      List.mem_filter.mpr ⟨List.getElem?_mem hop, by simp⟩
    have hl := inv op.tag
    unfold Lifecycle at hl
    cases hc : s.heap[op.tag]? with
    | none => rw [hc] at hl; rw [hl.1] at hmem; cases hmem
    | some oc =>
      cases oc with
      | none => rw [hc] at hl; rw [hl.1] at hmem; cases hmem
      | some c =>
        rw [hc] at hl
        simp only at hl
        have hlt : op.tag < s.heap.length := lt_of_getElem?_eq_some hc
        rcases hl with ⟨hst, hpo, _⟩ | ⟨hst, _, hpo, _⟩
        · rw [hpo] at hmem
          cases op with
          | Finish t m => simp at hmem
          | RequestSayHello t =>
            simp only [Op.tag] at hc hlt h
            left
            refine ⟨t, c, rfl, hc, hst, ?_⟩
            have hs1 : (complete s (pick % s.pending.length) (.RequestSayHello t) true
                name).heap[t]? = some (some ⟨name, c.reply_, c.status_⟩) := by
              simp [complete, hc, hlt]
            rw [Proceed_PROCESS hs1 hst] at h
            simp only [Outcome.running.injEq] at h
            rw [← h]
            simp [complete, hc]
        · rw [hpo] at hmem
          cases op with
          | RequestSayHello t => simp at hmem
          | Finish t m =>
            simp only [Op.tag] at hc hlt h hmem
            have hm : m = c.reply_ := by simpa using hmem
            subst hm
            right
            refine ⟨t, c, rfl, hc, hst, ?_⟩
            have hs1 : (complete s (pick % s.pending.length) (.Finish t c.reply_) true
                name).heap[t]? = some (some c) := by
              simp [complete, hc]
            rw [Proceed_FINISH hs1 hst] at h
            simp only [Outcome.running.injEq] at h
            rw [← h]
            simp [complete]

@[simp] theorem Op.tag_RequestSayHello (t : Nat) : (Op.RequestSayHello t).tag = t := rfl

@[simp] theorem Op.tag_Finish (t : Nat) (m : String) : (Op.Finish t m).tag = t := rfl

@[simp] theorem Action.subject_new (a : Nat) : (Action.new a).subject = a := rfl

@[simp] theorem Action.subject_arm (op : Op) : (Action.arm op).subject = op.tag := rfl

@[simp] theorem Action.subject_delete (a : Nat) : (Action.delete a).subject = a := rfl

theorem pendingOf_mk (h : List (Option CallData)) (p q : List Op) (tr : List Action) (a : Nat) :
    pendingOf ⟨h, p ++ q, tr⟩ a
      = p.filter (fun op => op.tag == a) ++ q.filter (fun op => op.tag == a) := by
  simp [pendingOf]

theorem traceOf_mk (h : List (Option CallData)) (p : List Op) (tr q : List Action) (a : Nat) :
    traceOf ⟨h, p, tr ++ q⟩ a
      = tr.filter (fun x => x.subject == a) ++ q.filter (fun x => x.subject == a) := by
  simp [traceOf]

theorem lifecycle_boot (a : Nat) : Lifecycle bootstrap a := by
  unfold Lifecycle
  cases a with
  | zero =>
    simp [bootstrap, construct, ProceedCREATE, alloc, ServerState.init, CallData.fresh,
      pendingOf, traceOf]
  | succ k =>
    simp [bootstrap, construct, ProceedCREATE, alloc, ServerState.init, CallData.fresh,
      pendingOf, traceOf]

theorem lifecycle_step {s s1 : ServerState} (inv : ∀ a, Lifecycle s a) (h : Step s s1) :
    ∀ a, Lifecycle s1 a := by
  obtain ⟨pick, name, hit⟩ := h
  intro a
  obtain ⟨i, hi⟩ : ∃ i, i = pick % s.pending.length := ⟨_, rfl⟩
  have hcases := iteration_running_cases inv hit
  rw [← hi] at hcases
  rcases hcases with ⟨t, c, hop, hc, hst, rfl⟩ | ⟨t, c, hop, hc, hst, rfl⟩
  · have hlt : t < s.heap.length := lt_of_getElem?_eq_some hc
    have hlt0 := inv t
    have hln := inv s.heap.length
    unfold Lifecycle at hlt0 hln
    rw [hc] at hlt0
    rw [List.getElem?_eq_none (le_refl _)] at hln
    simp only at hlt0 hln
    rcases hlt0 with ⟨_, hp, ht⟩ | ⟨hf, _⟩
    swap
    · rw [hst] at hf; cases hf
    have hp : s.pending.filter (fun op => op.tag == t) = [.RequestSayHello t] := hp
    have ht : s.trace.filter (fun x => x.subject == t) = [.new t, .arm (.RequestSayHello t)] := ht
    by_cases hat : a = t
    · subst hat
      unfold Lifecycle
      have hne : ¬ s.heap.length = a := by omega
      have he := filter_eraseIdx_singleton (fun op => op.tag == a) s.pending i _ _ hop
        (by simp) hp
      rw [List.getElem?_append_left (by simpa using hlt)]
      simp only [List.getElem?_set, hlt, if_true]
      simp only [pendingOf_mk, traceOf_mk, he, ht]
      simp [List.filter_cons, hne]
    · by_cases han : a = s.heap.length
      · subst han
        unfold Lifecycle
        have hne : ¬ t = s.heap.length := by omega
        have he := filter_eraseIdx_of_false (fun op => op.tag == s.heap.length) s.pending i _
          hop (by simp [hne])
        have hp1 : s.pending.filter (fun op => op.tag == s.heap.length) = [] := hln.1
        have ht1 : s.trace.filter (fun x => x.subject == s.heap.length) = [] := hln.2
        rw [List.getElem?_append_right (by simp)]
        simp only [pendingOf_mk, traceOf_mk, he, hp1, ht1]
        simp [List.filter_cons, hne]
      · apply Lifecycle_congr _ _ _ (inv a)
        · by_cases hal : a < s.heap.length
          · rw [List.getElem?_append_left (by simpa using hal)]
            simp [List.getElem?_set, Ne.symm hat]
          · rw [List.getElem?_eq_none (by simp; omega), List.getElem?_eq_none (by omega)]
        · have he := filter_eraseIdx_of_false (fun op => op.tag == a) s.pending i _ hop
            (by simp [Ne.symm hat])
          simp only [pendingOf_mk, he]
          simp [List.filter_cons, Ne.symm han, Ne.symm hat, pendingOf]
        · simp only [traceOf_mk]
          simp [List.filter_cons, Ne.symm han, Ne.symm hat, traceOf]
  · have hlt : t < s.heap.length := lt_of_getElem?_eq_some hc
    have hlt0 := inv t
    unfold Lifecycle at hlt0
    rw [hc] at hlt0
    simp only at hlt0
    rcases hlt0 with ⟨hf, _⟩ | ⟨_, _, hp, ht⟩
    · rw [hst] at hf; cases hf
    have hp : s.pending.filter (fun op => op.tag == t) = [.Finish t c.reply_] := hp
    have ht : s.trace.filter (fun x => x.subject == t)
        = [.new t, .arm (.RequestSayHello t), .arm (.Finish t c.reply_)] := ht
    by_cases hat : a = t
    · subst hat
      unfold Lifecycle
      have he := filter_eraseIdx_singleton (fun op => op.tag == a) s.pending i _ _ hop
        (by simp) hp
      simp only [List.getElem?_set, hlt, if_true]
      simp only [traceOf_mk, ht]
      simp [pendingOf, he]
    · apply Lifecycle_congr _ _ _ (inv a)
      · simp [List.getElem?_set, Ne.symm hat]
      · have he := filter_eraseIdx_of_false (fun op => op.tag == a) s.pending i _ hop
          (by simp [Ne.symm hat])
        simp [pendingOf, he]
      · simp only [traceOf_mk]
        simp [List.filter_cons, Ne.symm hat, traceOf]

/-- Every instance of every reachable state is at a definite point of its life. -/
theorem lifecycle_of_reachable {s : ServerState} (h : Reachable s) : ∀ a, Lifecycle s a := by
  induction h with
  | boot => exact lifecycle_boot
  | step _ hstep ih => exact lifecycle_step ih hstep

theorem waiting_of_status {s : ServerState} (inv : ∀ a, Lifecycle s a) {a : Nat} {c : CallData}
    (hc : s.heap[a]? = some (some c)) (hst : c.status_ = .PROCESS) : Waiting s a := by
  have hl := inv a
  unfold Lifecycle at hl
  rw [hc] at hl
  simp only at hl
  rcases hl with ⟨_, hp, _⟩ | ⟨hf, _⟩
  · refine ⟨c, hc, hst, ?_⟩
    have hm : Op.RequestSayHello a ∈ pendingOf s a := by rw [hp]; simp
    exact (List.mem_filter.mp hm).1
  · rw [hst] at hf; cases hf

theorem exists_process_of_reachable {s : ServerState} (h : Reachable s) :
    ∃ (a : Nat) (c : CallData), s.heap[a]? = some (some c) ∧ c.status_ = .PROCESS := by
  induction h with
  | boot => exact ⟨0, ⟨"", "", .PROCESS⟩, by simp [bootstrap, construct_heap, ServerState.init], rfl⟩
  | @step s s1 hr hstep ih =>
    obtain ⟨pick, name, hit⟩ := hstep
    obtain ⟨a, c, hc, hst⟩ := ih
    rcases iteration_running_cases (lifecycle_of_reachable hr) hit with
      ⟨t, d, _, _, _, rfl⟩ | ⟨t, d, _, hd, hdst, rfl⟩
    · exact ⟨s.heap.length, ⟨"", "", .PROCESS⟩, by
        rw [List.getElem?_append_right (by simp)]; simp, rfl⟩
    · have hne : t ≠ a := by
        intro hta
        subst hta
        rw [hd] at hc
        simp only [Option.some.injEq] at hc
        subst hc
        rw [hdst] at hst
        cases hst
      exact ⟨a, c, by simp [List.getElem?_set, hne, hc], hst⟩

/-- From a reachable state a successful event always leads to a next state: `Next` has
something to deliver and the tag it delivers names a live instance. -/
theorem iteration_progress {s : ServerState} (h : Reachable s) (pick : Nat) (name : String) :
    ∃ s1, iteration (.event pick true name) s = .running s1 := by
  have inv := lifecycle_of_reachable h
  obtain ⟨a, c, hc, hst⟩ := exists_process_of_reachable h
  obtain ⟨_, _, _, hmem⟩ := waiting_of_status inv hc hst
  have hpos : 0 < s.pending.length := List.length_pos_of_mem hmem
  have hlt : pick % s.pending.length < s.pending.length := Nat.mod_lt _ hpos
  unfold iteration
  simp only
  rw [List.getElem?_eq_getElem hlt]
  simp only [if_true]
  generalize hop : s.pending[pick % s.pending.length] = op
  have hop1 : s.pending[pick % s.pending.length]? = some op := by
    rw [List.getElem?_eq_getElem hlt, hop]
  have hm : op ∈ pendingOf s op.tag :=
    List.mem_filter.mpr ⟨List.getElem?_mem hop1, by simp⟩
  have hl := inv op.tag
  unfold Lifecycle at hl
  cases hh : s.heap[op.tag]? with
  | none => rw [hh] at hl; rw [hl.1] at hm; cases hm
  | some oc =>
    cases oc with
    | none => rw [hh] at hl; rw [hl.1] at hm; cases hm
    | some d =>
      rw [hh] at hl
      simp only at hl
      have hlt2 : op.tag < s.heap.length := lt_of_getElem?_eq_some hh
      rcases hl with ⟨hdst, hpo, _⟩ | ⟨hdst, _, hpo, _⟩
      · rw [hpo] at hm
        cases op with
        | Finish t m => simp at hm
        | RequestSayHello t =>
          simp only [Op.tag_RequestSayHello] at hh hlt2 ⊢
          have hs1 : (complete s (pick % s.pending.length) (.RequestSayHello t) true
              name).heap[t]? = some (some ⟨name, d.reply_, d.status_⟩) := by
            simp [complete, hh, hlt2]
          rw [Proceed_PROCESS hs1 hdst]
          exact ⟨_, rfl⟩
      · rw [hpo] at hm
        cases op with
        | RequestSayHello t => simp at hm
        | Finish t m =>
          simp only [Op.tag_Finish] at hh hlt2 ⊢
          have hs1 : (complete s (pick % s.pending.length) (.Finish t m) true
              name).heap[t]? = some (some d) := by
            simp [complete, hh]
          rw [Proceed_FINISH hs1 hdst]
          exact ⟨_, rfl⟩

theorem processes_of_reachable :
    ∀ (evs : List (Nat × String)) (rest : List NextResult) (s : ServerState), Reachable s →
      ∃ s1, processes evs s s1 ∧ Reachable s1 ∧
        HandleRpcsLoop (evs.map (fun e => .event e.1 true e.2) ++ .shutdown :: rest) s
          = .aborted .next s1
  | [], rest, s, h => ⟨s, rfl, h, by simp [HandleRpcsLoop, iteration]⟩
  | e :: evs, rest, s, h => by
    obtain ⟨s2, h2⟩ := iteration_progress h e.1 e.2
    obtain ⟨s1, hp, hr, hl⟩ := processes_of_reachable evs rest s2 (.step h ⟨_, _, h2⟩)
    refine ⟨s1, ⟨s2, h2, hp⟩, hr, ?_⟩
    simp only [List.map_cons, List.cons_append, HandleRpcsLoop, h2]
    exact hl

theorem iteration_ne_returned (r : NextResult) (s s1 : ServerState) :
    iteration r s ≠ .returned s1 := by
  unfold iteration
  cases r with
  | shutdown => simp
  | event pick ok name =>
    simp only
    split
    · simp
    · split
      · split <;> simp
      · simp

theorem HandleRpcsLoop_ne_returned :
    ∀ (script : List NextResult) (s s1 : ServerState), HandleRpcsLoop script s ≠ .returned s1
  | [], s, s1 => by simp [HandleRpcsLoop]
  | r :: rest, s, s1 => by
    have hr := iteration_ne_returned r s
    unfold HandleRpcsLoop
    cases hi : iteration r s with
    | running s2 => simpa using HandleRpcsLoop_ne_returned rest s2 s1
    | waiting s2 => simp
    | aborted c s2 => simp
    | undefined => simp
    | returned s2 => exact absurd hi (hr s2)

theorem counts_of_lifecycle {s : ServerState} {a : Nat} (hl : Lifecycle s a) :
    (pendingOf s a).length ≤ 1 ∧
      (∀ c, s.heap[a]? = some (some c) → c.status_ ≠ .CREATE) ∧
      (∀ c, s.heap[a]? = some (some c) → c.status_ = .PROCESS →
        proceedCalls s a = 1 ∧ replies s a = []) ∧
      (∀ c, s.heap[a]? = some (some c) → c.status_ = .FINISH →
        proceedCalls s a = 2 ∧ replies s a = [c.reply_]) ∧
      (s.heap[a]? = some none → proceedCalls s a = 3 ∧ (replies s a).length = 1) := by
  unfold Lifecycle at hl
  cases hh : s.heap[a]? with
  | none =>
    rw [hh] at hl
    simp [hl.1]
  | some oc =>
    cases oc with
    | none =>
      rw [hh] at hl
      obtain ⟨hp, m, ht⟩ := hl
      simp [hp, proceedCalls, replies, ht, List.filter_cons]
    | some c =>
      rw [hh] at hl
      simp only at hl
      rcases hl with ⟨hst, hp, ht⟩ | ⟨hst, _, hp, ht⟩
      · simp [hp, proceedCalls, replies, ht, List.filter_cons, hst]
      · simp [hp, proceedCalls, replies, ht, List.filter_cons, hst]

/-- C1: for every request name `n`, `Proceed` on a live instance `a` whose status is
`PROCESS` and whose request buffer holds `n` sets the reply buffer of `a` to
`"Hello " ++ n` and arms `Finish` with that message and tag `a`; the name `"foo"` gives
`"Hello foo"`; and when another instance `b` in the same status holds a different name,
its own `Proceed` arms its own, different, reply under its own tag while the reply of `a`
stays armed. -/
theorem C1_reply_is_hello_name (s : ServerState) (a : Nat) (c : CallData)
    (hlive : s.heap[a]? = some (some c)) (hst : c.status_ = .PROCESS) :
    ∃ s1, Proceed s a = some s1 ∧
      s1.heap[a]? = some (some ⟨c.request_, "Hello " ++ c.request_, .FINISH⟩) ∧
      s1.pending = s.pending ++
        [.RequestSayHello s.heap.length, .Finish a ("Hello " ++ c.request_)] ∧
      (c.request_ = "foo" → Op.Finish a "Hello foo" ∈ s1.pending) ∧
      ∀ (b : Nat) (d : CallData), b ≠ a → s.heap[b]? = some (some d) →
        d.status_ = .PROCESS → d.request_ ≠ c.request_ →
        ∃ s2, Proceed s1 b = some s2 ∧
          s2.heap[b]? = some (some ⟨d.request_, "Hello " ++ d.request_, .FINISH⟩) ∧
          s2.pending = s.pending ++
            [.RequestSayHello s.heap.length, .Finish a ("Hello " ++ c.request_),
              .RequestSayHello (s.heap.length + 1), .Finish b ("Hello " ++ d.request_)] ∧
          "Hello " ++ d.request_ ≠ "Hello " ++ c.request_ := by
  have hlt : a < s.heap.length := lt_of_getElem?_eq_some hlive
  refine ⟨_, Proceed_PROCESS hlive hst, ?_, rfl, ?_, ?_⟩
  · rw [List.getElem?_append_left (by simpa using hlt)]
    simp [List.getElem?_set, hlt]
  · intro hfoo
    simp [hfoo]
  · intro b d hba hd hdst hne
    have hblt : b < s.heap.length := lt_of_getElem?_eq_some hd
    have hd1 : (s.heap.set a (some ⟨c.request_, "Hello " ++ c.request_, .FINISH⟩)
        ++ [some ⟨"", "", .PROCESS⟩])[b]? = some (some d) := by
      rw [List.getElem?_append_left (by simpa using hblt)]
      simp [List.getElem?_set, Ne.symm hba, hd]
    refine ⟨_, Proceed_PROCESS (s := ⟨_, _, _⟩) hd1 hdst, ?_, ?_, ?_⟩
    · have hb1 : b < s.heap.length + 1 := by omega
      simp only
      rw [List.getElem?_append_left (by simpa using hb1)]
      simp [List.getElem?_set, hb1]
    · simp
    · exact fun h => hne (hello_injective h)

/-- C1 at a concrete state: two instances in `PROCESS` holding `"foo"` and `"bar"`. -/
theorem C1_reply_is_hello_name_witness :
    ∃ s1 s2,
      Proceed ⟨[some ⟨"foo", "", .PROCESS⟩, some ⟨"bar", "", .PROCESS⟩], [], []⟩ 0 = some s1 ∧
      Op.Finish 0 "Hello foo" ∈ s1.pending ∧
      Proceed s1 1 = some s2 ∧
      s2.pending = [.RequestSayHello 2, .Finish 0 "Hello foo", .RequestSayHello 3,
        .Finish 1 "Hello bar"] := by
  obtain ⟨s1, h1, _, _, hfoo, htwo⟩ := C1_reply_is_hello_name
    ⟨[some ⟨"foo", "", .PROCESS⟩, some ⟨"bar", "", .PROCESS⟩], [], []⟩ 0
    ⟨"foo", "", .PROCESS⟩ rfl rfl
  obtain ⟨s2, h2, _, hp, _⟩ := htwo 1 ⟨"bar", "", .PROCESS⟩ (by decide) rfl rfl (by decide)
  exact ⟨s1, s2, h1, hfoo rfl, h2, hp⟩

/-- C2: every reachable state of the server has a live instance that waits for an incoming
request (status `PROCESS`, its `RequestSayHello` armed); every successful event leads to a
next state that has one too; and in the transition in which the waiting instance `t`
receives its request, the sibling is created and armed before `t` arms its reply, so the
sibling is waiting in the next state while `t` no longer is. -/
theorem C2_always_an_instance_waiting (s : ServerState) (h : Reachable s) :
    (∃ a, Waiting s a) ∧
      ∀ (pick : Nat) (name : String),
        ∃ s1, iteration (.event pick true name) s = .running s1 ∧ (∃ a, Waiting s1 a) ∧
          ∀ t, s.pending[pick % s.pending.length]? = some (.RequestSayHello t) →
            Waiting s t ∧ Waiting s1 s.heap.length ∧ ¬ Waiting s1 t ∧
            s1.trace = s.trace ++
              [.new s.heap.length, .arm (.RequestSayHello s.heap.length),
                .arm (.Finish t ("Hello " ++ name))] := by
  have inv := lifecycle_of_reachable h
  refine ⟨?_, ?_⟩
  · obtain ⟨a, c, hc, hst⟩ := exists_process_of_reachable h
    exact ⟨a, waiting_of_status inv hc hst⟩
  · intro pick name
    obtain ⟨s1, h1⟩ := iteration_progress h pick name
    have hr1 : Reachable s1 := .step h ⟨pick, name, h1⟩
    have inv1 := lifecycle_of_reachable hr1
    refine ⟨s1, h1, ?_, ?_⟩
    · obtain ⟨a, c, hc, hst⟩ := exists_process_of_reachable hr1
      exact ⟨a, waiting_of_status inv1 hc hst⟩
    · intro t ht
      rcases iteration_running_cases inv h1 with
        ⟨t1, c, hop, hc, hst, hs1⟩ | ⟨t1, c, hop, _, _, _⟩
      · rw [ht] at hop
        simp only [Option.some.injEq, Op.RequestSayHello.injEq] at hop
        subst hop
        have hlt : t < s.heap.length := lt_of_getElem?_eq_some hc
        refine ⟨waiting_of_status inv hc hst, ?_, ?_, ?_⟩
        · apply waiting_of_status inv1 (c := ⟨"", "", .PROCESS⟩) _ rfl
          rw [hs1, List.getElem?_append_right (by simp)]
          simp
        · rintro ⟨d, hd, hdst, _⟩
          rw [hs1] at hd
          simp only at hd
          rw [List.getElem?_append_left (by simpa using hlt)] at hd
          simp [List.getElem?_set, hlt] at hd
          rw [← hd] at hdst
          cases hdst
        · rw [hs1]
      · rw [ht] at hop
        cases hop

/-- C2 at the bootstrap state: the first instance waits, and after its request arrives
the sibling at address `1` waits. -/
theorem C2_always_an_instance_waiting_witness :
    (∃ a, Waiting bootstrap a) ∧
      ∃ s1, iteration (.event 0 true "foo") bootstrap = .running s1 ∧ Waiting s1 1 := by
  obtain ⟨h0, hstep⟩ := C2_always_an_instance_waiting bootstrap .boot
  obtain ⟨s1, h1, _, ht⟩ := hstep 0 "foo"
  exact ⟨h0, s1, h1, (ht 0 (by decide)).2.1⟩

/-- C3: a call of `Proceed` on a live instance `a` in `CREATE` arms exactly one operation,
`RequestSayHello` tagged `a`, and moves `a` to `PROCESS`; in `PROCESS` it arms exactly one
operation tagged `a`, the `Finish` of its reply, and moves `a` to `FINISH`; in `FINISH` it
arms nothing and releases `a`. The constructor makes the first call. Hence in every
reachable state an instance has at most one armed operation, is never seen in `CREATE`,
has had one call and sent no reply while in `PROCESS`, two calls and one reply while in
`FINISH`, and is released after exactly three calls and one reply. -/
theorem C3_Proceed_arms_one_operation (s : ServerState) (a : Nat) :
    (∀ c, s.heap[a]? = some (some c) →
        (c.status_ = .CREATE → ∃ s1, Proceed s a = some s1 ∧
          s1.heap[a]? = some (some { c with status_ := .PROCESS }) ∧
          s1.pending = s.pending ++ [.RequestSayHello a]) ∧
        (c.status_ = .PROCESS → ∃ s1 message ops, Proceed s a = some s1 ∧
          s1.heap[a]? = some (some { c with reply_ := message, status_ := .FINISH }) ∧
          s1.pending = s.pending ++ ops ∧
          ops.filter (fun op => op.tag == a) = [.Finish a message]) ∧
        (c.status_ = .FINISH → ∃ s1, Proceed s a = some s1 ∧
          s1.heap[a]? = some none ∧ s1.pending = s.pending)) ∧
      Proceed (alloc s) s.heap.length = some (construct s) ∧
      (Reachable s →
        (pendingOf s a).length ≤ 1 ∧
        (∀ c, s.heap[a]? = some (some c) → c.status_ ≠ .CREATE) ∧
        (∀ c, s.heap[a]? = some (some c) → c.status_ = .PROCESS →
          proceedCalls s a = 1 ∧ replies s a = []) ∧
        (∀ c, s.heap[a]? = some (some c) → c.status_ = .FINISH →
          proceedCalls s a = 2 ∧ replies s a = [c.reply_]) ∧
        (s.heap[a]? = some none → proceedCalls s a = 3 ∧ (replies s a).length = 1)) := by
  refine ⟨?_, construct_eq_Proceed s, fun h => counts_of_lifecycle (lifecycle_of_reachable h a)⟩
  intro c hlive
  have hlt : a < s.heap.length := lt_of_getElem?_eq_some hlive
  refine ⟨?_, ?_, ?_⟩
  · intro hst
    exact ⟨_, Proceed_CREATE hlive hst, by simp [ProceedCREATE, List.getElem?_set, hlt], rfl⟩
  · intro hst
    refine ⟨_, "Hello " ++ c.request_, _, Proceed_PROCESS hlive hst, ?_, rfl, ?_⟩
    · simp only
      rw [List.getElem?_append_left (by simpa using hlt)]
      simp [List.getElem?_set, hlt]
    · have hne : ¬ s.heap.length = a := by omega
      simp [List.filter_cons, hne]
  · intro hst
    exact ⟨_, Proceed_FINISH hlive hst, by simp [List.getElem?_set, hlt], rfl⟩

/-- C3 along the life of the first instance: constructed, given the request `"foo"`, and
told that its reply was delivered, it is released by its third call of `Proceed`. -/
theorem C3_Proceed_arms_one_operation_witness :
    proceedCalls bootstrap 0 = 1 ∧
      ∃ s1 s2, iteration (.event 0 true "foo") bootstrap = .running s1 ∧
        iteration (.event 1 true "") s1 = .running s2 ∧
        proceedCalls s1 0 = 2 ∧ proceedCalls s2 0 = 3 ∧ s2.heap[0]? = some none ∧
        replies s2 0 = ["Hello foo"] := by
  refine ⟨((C3_Proceed_arms_one_operation bootstrap 0).2.2 .boot).2.2.1 _ rfl rfl |>.1, ?_⟩
  exact ⟨_, _, rfl, rfl, by decide, by decide, by decide, by decide⟩

/-- C4, as the code behaves: for every finite sequence of successful events followed by a
shutdown indication, `HandleRpcs` runs its loop body on each event once, in order, and
then stops on the failed `CHECK` of the return value of `Next`; whatever the queue does,
`HandleRpcs` never returns. -/
theorem C4_HandleRpcs_aborts_on_shutdown (evs : List (Nat × String)) (rest : List NextResult) :
    (∃ s1, processes evs bootstrap s1 ∧
        HandleRpcs (evs.map (fun e => .event e.1 true e.2) ++ .shutdown :: rest)
          = .aborted .next s1) ∧
      ∀ script s, HandleRpcs script ≠ .returned s := by
  refine ⟨?_, fun script s => HandleRpcsLoop_ne_returned script bootstrap s⟩
  obtain ⟨s1, hp, _, hl⟩ := processes_of_reachable evs rest bootstrap .boot
  exact ⟨s1, hp, hl⟩

/-- C4 fails as stated: on one successful event followed by shutdown, `HandleRpcs` does not
return; it aborts on `CHECK(cq_->Next(&tag, &ok))`. -/
theorem C4_shutdown_aborts_counterexample :
    (¬ ∃ s, HandleRpcs [.event 0 true "foo", .shutdown] = .returned s) ∧
      HandleRpcs [.event 0 true "foo", .shutdown]
        = .aborted .next
            ⟨[some ⟨"foo", "Hello foo", .FINISH⟩, some ⟨"", "", .PROCESS⟩],
              [.RequestSayHello 1, .Finish 0 "Hello foo"],
              [.new 0, .arm (.RequestSayHello 0), .new 1, .arm (.RequestSayHello 1),
                .arm (.Finish 0 "Hello foo")]⟩ := by
  have h : HandleRpcs [.event 0 true "foo", .shutdown]
      = .aborted .next
          ⟨[some ⟨"foo", "Hello foo", .FINISH⟩, some ⟨"", "", .PROCESS⟩],
            [.RequestSayHello 1, .Finish 0 "Hello foo"],
            [.new 0, .arm (.RequestSayHello 0), .new 1, .arm (.RequestSayHello 1),
              .arm (.Finish 0 "Hello foo")]⟩ := by decide
  refine ⟨?_, h⟩
  rintro ⟨s, hs⟩
  rw [h] at hs
  cases hs

end GreeterServer

/-! ## The client -/

namespace GreeterClient

theorem wrap32_eq {x : Int} (h1 : INT_MIN ≤ x) (h2 : x ≤ INT_MAX) : wrap32 x = x := by
  unfold wrap32
  unfold INT_MIN at h1
  unfold INT_MAX at h2
  omega

theorem wrap64_eq {x : Int} (h1 : LLONG_MIN ≤ x) (h2 : x ≤ LLONG_MAX) : wrap64 x = x := by
  unfold wrap64
  unfold LLONG_MIN at h1
  unfold LLONG_MAX at h2
  omega

theorem wrap64_wrap64_add (x d : Int) : wrap64 (wrap64 x + d) = wrap64 (x + d) := by
  unfold wrap64
  omega

theorem perm_cons_eraseIdx {α : Type} :
    ∀ (l : List α) (i : Nat) (x : α), l[i]? = some x → l.Perm (x :: l.eraseIdx i)
  | [], _, _, h => by simp at h
  | y :: tl, 0, x, h => by
    simp at h
    subst h
    simp
  | y :: tl, i + 1, x, h => by
    simp at h
    simp only [List.eraseIdx_cons_succ]
    exact ((perm_cons_eraseIdx tl i x h).cons y).trans (List.Perm.swap x y _)

@[simp] theorem deletedIn_append (t u : List Action) :
    deletedIn (t ++ u) = deletedIn t ++ deletedIn u := by
  simp [deletedIn]

@[simp] theorem latenciesIn_append (t u : List Action) :
    latenciesIn (t ++ u) = latenciesIn t ++ latenciesIn u := by
  simp [latenciesIn]

@[simp] theorem failuresIn_append (t u : List Action) :
    failuresIn (t ++ u) = failuresIn t + failuresIn u := by
  simp [failuresIn]

@[simp] theorem drainedIn_append (t u : List Action) :
    drainedIn (t ++ u) = drainedIn t + drainedIn u := by
  simp [drainedIn]

/-- One iteration of the drain loop on the record `r` at `tag`. -/
theorem receive_eq {clock : Nat → Int} {c : Client} {pick : Nat} {ok : Bool} {status : Status}
    {message : String} {tag : Nat} {r : AsyncCallData}
    (hp : c.pending[pick % c.pending.length]? = some tag)
    (hr : c.heap[tag]? = some (some r)) :
    receive clock c pick ok status message
      = .returned (drainStep clock c (pick % c.pending.length) tag r ok status) := by
  have hlt : tag < c.heap.length := by
    by_contra hn
    rw [List.getElem?_eq_none (by omega)] at hr
    cases hr
  unfold receive drainStep
  rw [hp]
  simp only [complete, hr, finalize, List.getElem?_set, hlt, if_true, succeeded]
  by_cases hs : (ok && status.ok) = true
  · simp [hs]
  · simp [hs]

theorem drainStep_trace_true {clock : Nat → Int} {c : Client} {i tag : Nat} {r : AsyncCallData}
    {ok : Bool} {status : Status} (hs : (ok && status.ok) = true) :
    (drainStep clock c i tag r ok status).trace = c.trace ++
      [.drained tag ok,
        .succeeded r.request_id (duration_cast_ms (clock c.clock_reads - r.start_time)),
        .delete tag] := by
  simp [drainStep, hs]

theorem drainStep_trace_false {clock : Nat → Int} {c : Client} {i tag : Nat} {r : AsyncCallData}
    {ok : Bool} {status : Status} (hs : ¬ (ok && status.ok) = true) :
    (drainStep clock c i tag r ok status).trace = c.trace ++
      [.drained tag ok,
        .failed r.request_id
          (if !ok then .operationNotOk else .status status.error_code status.error_message)
          (duration_cast_ms (clock c.clock_reads - r.start_time)),
        .delete tag] := by
  simp [drainStep, hs]

theorem trace_step_true (tag : Nat) (ok : Bool) (id took : Int) :
    deletedIn [.drained tag ok, .succeeded id took, .delete tag] = [tag] ∧
      latenciesIn [.drained tag ok, .succeeded id took, .delete tag] = [took] ∧
      failuresIn [.drained tag ok, .succeeded id took, .delete tag] = 0 ∧
      drainedIn [.drained tag ok, .succeeded id took, .delete tag] = 1 :=
  ⟨rfl, rfl, rfl, rfl⟩

theorem trace_step_false (tag : Nat) (ok : Bool) (id took : Int) (why : Failure) :
    deletedIn [.drained tag ok, .failed id why took, .delete tag] = [tag] ∧
      latenciesIn [.drained tag ok, .failed id why took, .delete tag] = [] ∧
      failuresIn [.drained tag ok, .failed id why took, .delete tag] = 1 ∧
      drainedIn [.drained tag ok, .failed id why took, .delete tag] = 1 :=
  ⟨rfl, rfl, rfl, rfl⟩

theorem drainStep_counts (clock : Nat → Int) (c : Client) (i tag : Nat) (r : AsyncCallData)
    (ok : Bool) (status : Status) :
    deletedIn (drainStep clock c i tag r ok status).trace = deletedIn c.trace ++ [tag] ∧
      drainedIn (drainStep clock c i tag r ok status).trace = drainedIn c.trace + 1 ∧
      latenciesIn (drainStep clock c i tag r ok status).trace = latenciesIn c.trace ++
        (if ok && status.ok then
          [duration_cast_ms (clock c.clock_reads - r.start_time)] else []) ∧
      failuresIn (drainStep clock c i tag r ok status).trace = failuresIn c.trace +
        (if ok && status.ok then 0 else 1) := by
  by_cases hs : (ok && status.ok) = true
  · rw [drainStep_trace_true hs]
    obtain ⟨h1, h2, h3, h4⟩ := trace_step_true tag ok r.request_id
      (duration_cast_ms (clock c.clock_reads - r.start_time))
    simp only [deletedIn_append, drainedIn_append, latenciesIn_append, failuresIn_append,
      h1, h2, h3, h4, hs, if_true, and_self]
  · rw [drainStep_trace_false hs]
    obtain ⟨h1, h2, h3, h4⟩ := trace_step_false tag ok r.request_id
      (duration_cast_ms (clock c.clock_reads - r.start_time))
      (if !ok then .operationNotOk else .status status.error_code status.error_message)
    simp only [deletedIn_append, drainedIn_append, latenciesIn_append, failuresIn_append,
      h1, h2, h3, h4]
    simp [hs]

theorem drainStep_inv {clock : Nat → Int} {c : Client} (inv : Inv clock c) {i tag : Nat}
    {r : AsyncCallData} (hp : c.pending[i]? = some tag) (hr : c.heap[tag]? = some (some r))
    (ok : Bool) (status : Status) : Inv clock (drainStep clock c i tag r ok status) := by
  have hlt : tag < c.heap.length := by
    by_contra hn
    rw [List.getElem?_eq_none (by omega)] at hr
    cases hr
  have hmem : tag ∈ c.pending := List.getElem?_mem hp
  obtain ⟨r1, hr1, hid, hstart⟩ := inv.live tag hmem
  rw [hr] at hr1
  simp only [Option.some.injEq] at hr1
  subst hr1
  have hperm := perm_cons_eraseIdx c.pending i tag hp
  have hnodup : (tag :: c.pending.eraseIdx i).Nodup :=
    hperm.nodup_iff.mp ((inv.perm.nodup_iff.mpr (List.nodup_range _)).of_append_right)
  have hnot : tag ∉ c.pending.eraseIdx i := (List.nodup_cons.mp hnodup).1
  have hlen : (deletedIn c.trace).length + c.pending.length = c.heap.length := by
    have := inv.perm.length_eq
    simpa using this
  have hpos : 0 < c.pending.length := List.length_pos_of_mem hmem
  obtain ⟨hdel, hdr, hlat, hfail⟩ := drainStep_counts clock c i tag r ok status
  have hc := inv.count
  have hcl := inv.classified
  have hb := inv.bound
  have ht := inv.total
  have hrd := inv.reads
  refine ⟨?_, ?_, ?_, ?_, ?_, ?_, ?_, ?_, ?_, ?_⟩
  · rw [hdel]
    have h1 : (deletedIn c.trace ++ [tag] ++ c.pending.eraseIdx i).Perm
        (deletedIn c.trace ++ c.pending) := by
      rw [List.append_assoc]
      exact List.Perm.append_left _ hperm.symm
    simpa [drainStep] using h1.trans inv.perm
  · intro t ht
    have ht1 : t ∈ c.pending.eraseIdx i := ht
    have hne : tag ≠ t := fun h => hnot (h ▸ ht1)
    obtain ⟨r2, h2, h3, h4⟩ := inv.live t (List.mem_of_mem_eraseIdx ht1)
    exact ⟨r2, by simp [drainStep, List.getElem?_set, hne, h2], h3, h4⟩
  · intro t ht
    rw [hdel] at ht
    simp only [List.mem_append, List.mem_singleton] at ht
    rcases ht with ht | ht
    · have := inv.dead t ht
      by_cases hne : tag = t
      · subst hne
        simp [drainStep, List.getElem?_set, hlt]
      · simp [drainStep, List.getElem?_set, hne, this]
    · subst ht
      simp [drainStep, List.getElem?_set, hlt]
  · rw [hlat]
    by_cases hs : (ok && status.ok) = true
    · simp only [drainStep, hs, if_true]
      rw [wrap32_eq (by unfold INT_MIN; omega) (by omega)]
      simp [hc]
    · simp [drainStep, hs, hc]
  · rw [hlat]
    by_cases hs : (ok && status.ok) = true
    · simp only [drainStep, hs, if_true]
      rw [ht, wrap64_wrap64_add]
      simp
    · simp [drainStep, hs, ht]
  · rw [hdel, hlat, hfail]
    by_cases hs : (ok && status.ok) = true
    · simp only [hs, if_true, List.length_append, List.length_singleton]
      omega
    · simp [hs]
      omega
  · rw [hdr, hdel, inv.drained]
    simp
  · simpa [drainStep] using inv.bound
  · simp only [drainStep, List.length_set]
    omega
  · have hold : ∀ id took, Action.succeeded id took ∈ c.trace →
        0 ≤ id ∧ id.toNat < (drainStep clock c i tag r ok status).heap.length ∧
          ∃ k, (drainStep clock c i tag r ok status).heap.length < k ∧
            k < (drainStep clock c i tag r ok status).clock_reads ∧
            took = duration_cast_ms (clock k - clock (id.toNat + 1)) := by
      intro id took hin
      obtain ⟨h1, h2, k, h3, h4, h5⟩ := inv.timed id took hin
      simp only [drainStep, List.length_set]
      exact ⟨h1, h2, k, h3, by omega, h5⟩
    intro id took hin
    by_cases hs : (ok && status.ok) = true
    · rw [drainStep_trace_true hs] at hin
      simp only [List.mem_append, List.mem_cons, List.mem_singleton, Action.succeeded.injEq,
        List.not_mem_nil, or_false] at hin
      rcases hin with hin | hin | ⟨h1, h2⟩ | hin
      · exact hold id took hin
      · cases hin
      · simp only [drainStep, List.length_set]
        rw [h1, hid]
        refine ⟨by omega, by simpa using hlt, c.clock_reads, hrd, by omega, ?_⟩
        rw [h2, hstart]
        simp
      · cases hin
    · rw [drainStep_trace_false hs] at hin
      simp only [List.mem_append, List.mem_cons, List.mem_singleton, List.not_mem_nil,
        or_false] at hin
      rcases hin with hin | hin | hin | hin
      · exact hold id took hin
      · cases hin
      · cases hin
      · cases hin

theorem foldl_sendOne (clock : Nat → Int) ( name_prefix : String) :
    ∀ n : Nat, (List.range n).foldl
      (fun (c : Client) (i : Nat) => sendOne clock name_prefix c (i : Int))
      { Client.fresh with clock_reads := 1 } = started clock name_prefix n
  | 0 => rfl
  | n + 1 => by
    rw [List.range_succ, List.foldl_append, foldl_sendOne clock name_prefix n]
    simp [sendOne, started, submitsOf, List.range_succ]

theorem sendAll_fresh (clock : Nat → Int) ( name_prefix : String) (num_requests : Int) :
    sendAll clock name_prefix num_requests { Client.fresh with clock_reads := 1 }
      = started clock name_prefix num_requests.toNat :=
  foldl_sendOne clock name_prefix num_requests.toNat

theorem submitsOf_no_other ( name_prefix : String) (n : Nat) :
    deletedIn (submitsOf name_prefix n) = [] ∧ latenciesIn (submitsOf name_prefix n) = [] ∧
      failuresIn (submitsOf name_prefix n) = 0 ∧ drainedIn (submitsOf name_prefix n) = 0 ∧
      ∀ id took, Action.succeeded id took ∉ submitsOf name_prefix n := by
  refine ⟨?_, ?_, ?_, ?_, ?_⟩
  · simp [deletedIn, submitsOf, List.filterMap_map, Function.comp_def]
  · simp [latenciesIn, submitsOf, List.filterMap_map, Function.comp_def]
  · simp [failuresIn, submitsOf, List.filter_map, Function.comp_def, Action.isFailed]
  · simp [drainedIn, submitsOf, List.filter_map, Function.comp_def, Action.isDrained]
  · simp [submitsOf]

theorem started_inv (clock : Nat → Int) ( name_prefix : String) (n : Nat)
    (hn : (n : Int) ≤ INT_MAX) : Inv clock (started clock name_prefix n) := by
  obtain ⟨h1, h2, h3, h4, h5⟩ := submitsOf_no_other name_prefix n
  refine ⟨?_, ?_, ?_, ?_, ?_, ?_, ?_, ?_, ?_, ?_⟩
  · simp [started, h1]
  · intro tag ht
    have hlt : tag < n := by simpa [started] using ht
    exact ⟨⟨(tag : Int), clock (tag + 1), "", ⟨0, ""⟩⟩, by simp [started, hlt], rfl, rfl⟩
  · intro tag ht
    simp [started, h1] at ht
  · simp [started, h2]
  · simp [started, h2, wrap64]
  · simp [started, h1, h2, h3]
  · simp [started, h1, h4]
  · simpa [started] using hn
  · simp [started]
  · intro id took hin
    exact absurd hin (h5 id took)

theorem shutdown_inv {clock : Nat → Int} {c : Client} (inv : Inv clock c) :
    Inv clock { c with trace := c.trace ++ [.shutdown] } := by
  have h1 : deletedIn [Action.shutdown] = [] := rfl
  have h2 : latenciesIn [Action.shutdown] = [] := rfl
  have h3 : failuresIn [Action.shutdown] = 0 := rfl
  have h4 : drainedIn [Action.shutdown] = 0 := rfl
  refine ⟨?_, inv.live, ?_, ?_, ?_, ?_, ?_, inv.bound, inv.reads, ?_⟩
  · simpa [h1] using inv.perm
  · simpa [h1] using inv.dead
  · simpa [h2] using inv.count
  · simpa [h2] using inv.total
  · simpa [h1, h2, h3] using inv.classified
  · simpa [h1, h4] using inv.drained
  · intro id took hin
    simp only [List.mem_append, List.mem_singleton] at hin
    rcases hin with hin | hin
    · exact inv.timed id took hin
    · cases hin

theorem drainStep_no_submit (clock : Nat → Int) (c : Client) (i tag : Nat) (r : AsyncCallData)
    (ok : Bool) (status : Status) :
    ∃ D, (drainStep clock c i tag r ok status).trace = c.trace ++ D ∧
      ∀ x ∈ D, Action.isSubmit x = false := by
  by_cases hs : (ok && status.ok) = true
  · exact ⟨_, drainStep_trace_true hs, by simp [Action.isSubmit]⟩
  · exact ⟨_, drainStep_trace_false hs, by simp [Action.isSubmit]⟩

/-- Whatever the queue does, a drain loop that returns keeps the bookkeeping, allocates
nothing and starts no call. -/
theorem loop_inv (clock : Nat → Int) (expected : Int) :
    ∀ (script : List NextResult) (received : Int) (c c1 : Client), Inv clock c →
      ProcessResponsesLoop clock expected script received c = .returned c1 →
      Inv clock c1 ∧ c1.heap.length = c.heap.length ∧
        ∃ D, c1.trace = c.trace ++ D ∧ ∀ x ∈ D, Action.isSubmit x = false
  | [], received, c, c1, inv, h => by
    unfold ProcessResponsesLoop at h
    split at h
    · cases h
    · simp only [Outcome.returned.injEq] at h
      subst h
      exact ⟨inv, rfl, [], by simp, by simp⟩
  | .shutdown :: rest, received, c, c1, inv, h => by
    unfold ProcessResponsesLoop at h
    split at h
    · simp only [Outcome.returned.injEq] at h
      subst h
      exact ⟨shutdown_inv inv, rfl, [.shutdown], rfl, by simp [Action.isSubmit]⟩
    · simp only [Outcome.returned.injEq] at h
      subst h
      exact ⟨inv, rfl, [], by simp, by simp⟩
  | .event pick ok status message :: rest, received, c, c1, inv, h => by
    unfold ProcessResponsesLoop at h
    split at h
    · dsimp only at h
      cases hp : c.pending[pick % c.pending.length]? with
      | none =>
        simp [receive, hp] at h
      | some tag =>
        obtain ⟨r, hr, _, _⟩ := inv.live tag (List.getElem?_mem hp)
        rw [receive_eq hp hr] at h
        simp only at h
        obtain ⟨h1, h2, D, h3, h4⟩ := loop_inv clock expected rest (received + 1) _ c1
          (drainStep_inv inv hp hr ok status) h
        obtain ⟨D0, h5, h6⟩ :=
          drainStep_no_submit clock c (pick % c.pending.length) tag r ok status
        refine ⟨h1, by simpa [drainStep] using h2, D0 ++ D, ?_, ?_⟩
        · rw [h3, h5, List.append_assoc]
        · intro x hx
          rcases List.mem_append.mp hx with hx | hx
          · exact h6 x hx
          · exact h4 x hx
    · simp only [Outcome.returned.injEq] at h
      subst h
      exact ⟨inv, rfl, [], by simp, by simp⟩

/-- A run of events, as many as there are calls in flight at most, is drained event by
event: the loop goes on with the rest of the script, one record released per event. -/
theorem drain_events (clock : Nat → Int) (expected : Int) :
    ∀ (evs : List NextResult) (received : Int) (c : Client), Inv clock c →
      (∀ r ∈ evs, r ≠ .shutdown) → evs.length ≤ c.pending.length →
      received + (evs.length : Int) ≤ expected →
      ∃ c1, (∀ rest, ProcessResponsesLoop clock expected (evs ++ rest) received c
            = ProcessResponsesLoop clock expected rest (received + (evs.length : Int)) c1) ∧
        Inv clock c1 ∧ c1.pending.length + evs.length = c.pending.length ∧
        c1.clock_reads = c.clock_reads + evs.length ∧
        drainedIn c1.trace = drainedIn c.trace + evs.length ∧
        (latenciesIn c1.trace).length
          = (latenciesIn c.trace).length + evs.countP NextResult.success ∧
        c1.heap.length = c.heap.length ∧
        ∃ D, c1.trace = c.trace ++ D ∧ ∀ x ∈ D, Action.isSubmit x = false
  | [], received, c, inv, _, _, _ =>
    ⟨c, by simp, inv, by simp, by simp, by simp, by simp, rfl, [], by simp, by simp⟩
  | .shutdown :: evs, _, _, _, hev, _, _ => absurd rfl (hev .shutdown (by simp))
  | .event pick ok status message :: evs, received, c, inv, hev, hlen, hexp => by
    simp only [List.length_cons] at hlen hexp
    have hpos : 0 < c.pending.length := by omega
    have hlt : pick % c.pending.length < c.pending.length := Nat.mod_lt _ hpos
    have hp : c.pending[pick % c.pending.length]? = some c.pending[pick % c.pending.length] :=
      List.getElem?_eq_getElem hlt
    obtain ⟨r, hr, _, _⟩ := inv.live _ (List.getElem?_mem hp)
    have hrec : received < expected := by push_cast at hexp; omega
    obtain ⟨c1, h1, h2, h3, h4, h5, h6, h7, D, h8, h9⟩ :=
      drain_events clock expected evs (received + 1)
        (drainStep clock c (pick % c.pending.length) _ r ok status)
        (drainStep_inv inv hp hr ok status)
        (fun r hr => hev r (List.mem_cons_of_mem _ hr))
        (by simp [drainStep, List.length_eraseIdx, hlt]; omega)
        (by push_cast at hexp; omega)
    obtain ⟨_, hdr, hlat, _⟩ := drainStep_counts clock c (pick % c.pending.length)
      c.pending[pick % c.pending.length] r ok status
    obtain ⟨D0, h10, h11⟩ := drainStep_no_submit clock c (pick % c.pending.length)
      c.pending[pick % c.pending.length] r ok status
    refine ⟨c1, ?_, h2, ?_, ?_, ?_, ?_, ?_, D0 ++ D, ?_, ?_⟩
    · intro rest
      rw [List.cons_append, ProcessResponsesLoop, if_pos hrec, receive_eq hp hr]
      simp only
      rw [h1]
      congr 1
      simp only [List.length_cons]
      push_cast
      ring
    · have : (drainStep clock c (pick % c.pending.length) c.pending[pick % c.pending.length]
          r ok status).pending.length + 1 = c.pending.length := by
        simp [drainStep, List.length_eraseIdx, hlt]
        omega
      simp only [List.length_cons]
      omega
    · rw [h4]
      simp [drainStep]
      omega
    · rw [h5, hdr]
      simp
      omega
    · rw [h6, hlat]
      by_cases hs : (ok && status.ok) = true
      · simp [hs, NextResult.success, List.countP_cons]
        omega
      · simp [hs, NextResult.success, List.countP_cons]
    · simpa [drainStep] using h7
    · rw [h8, h10, List.append_assoc]
    · intro x hx
      rcases List.mem_append.mp hx with hx | hx
      · exact h11 x hx
      · exact h9 x hx

theorem loop_done (clock : Nat → Int) {expected received : Int} (h : ¬ received < expected)
    (script : List NextResult) (c : Client) :
    ProcessResponsesLoop clock expected script received c = .returned c := by
  cases script with
  | nil => simp [ProcessResponsesLoop, h]
  | cons r rest => simp [ProcessResponsesLoop, h]

/-- On a fresh client `SendConcurrentRequests` is the drain loop run on the client written
out by `started`, followed by the last clock reading and the summary. -/
theorem send_fresh (clock : Nat → Int) (script : List NextResult) ( name_prefix : String)
    (num_requests : Int) :
    SendConcurrentRequests clock script name_prefix num_requests .fresh
      = match ProcessResponses clock script num_requests
            (started clock name_prefix num_requests.toNat) with
        | .returned c2 =>
          .returned ({ c2 with clock_reads := c2.clock_reads + 1 },
            summarize { c2 with clock_reads := c2.clock_reads + 1 } num_requests
              (duration_cast_ms (clock c2.clock_reads - clock 0)))
        | .waiting c2 => .waiting c2
        | .undefined => .undefined := by
  have h := sendAll_fresh clock name_prefix num_requests
  unfold SendConcurrentRequests
  simp only
  rw [show ({ Client.fresh with clock_reads := Client.fresh.clock_reads + 1 } : Client)
    = { Client.fresh with clock_reads := 1 } from rfl, h]
  rfl

theorem send_fresh_returned {clock : Nat → Int} {script : List NextResult}
    { name_prefix : String} {num_requests : Int} {c : Client} {sm : Summary}
    (h : SendConcurrentRequests clock script name_prefix num_requests .fresh
      = .returned (c, sm)) :
    ∃ c2, ProcessResponses clock script num_requests
        (started clock name_prefix num_requests.toNat) = .returned c2 ∧
      c = { c2 with clock_reads := c2.clock_reads + 1 } ∧
      sm = summarize c num_requests (duration_cast_ms (clock c2.clock_reads - clock 0)) := by
  rw [send_fresh] at h
  cases hp : ProcessResponses clock script num_requests
      (started clock name_prefix num_requests.toNat) with
  | returned c2 =>
    rw [hp] at h
    simp only [Outcome.returned.injEq, Prod.mk.injEq] at h
    exact ⟨c2, rfl, h.1.symm, by rw [← h.2, ← h.1]⟩
  | waiting c2 => rw [hp] at h; cases h
  | undefined => rw [hp] at h; cases h

/-- The drain loop on a batch of `count` calls started on a fresh client, when the queue
delivers `evs` and the loop then stops: the facts shared by the complete and the
interrupted batch. -/
theorem drained_batch (clock : Nat → Int) ( name_prefix : String) (count : Int)
    (evs : List NextResult) (hmax : count ≤ INT_MAX) (hlen : (evs.length : Int) ≤ count)
    (hev : ∀ r ∈ evs, r ≠ .shutdown) :
    ∃ c1 D, (∀ rest, ProcessResponsesLoop clock count (evs ++ rest) 0
          (started clock name_prefix count.toNat)
          = ProcessResponsesLoop clock count rest (evs.length : Int) c1) ∧
      Inv clock c1 ∧ c1.heap.length = count.toNat ∧
      c1.pending.length + evs.length = count.toNat ∧
      c1.clock_reads = count.toNat + 1 + evs.length ∧
      c1.trace = submitsOf name_prefix count.toNat ++ D ∧
      (∀ x ∈ D, Action.isSubmit x = false) ∧
      drainedIn D = evs.length ∧ (deletedIn D).length = evs.length ∧
      deletedIn c1.trace = deletedIn D ∧
      (latenciesIn D).length = evs.countP NextResult.success ∧
      failuresIn D = evs.countP (fun r => !r.success) ∧
      c1.success_count_ = (evs.countP NextResult.success : Int) ∧
      c1.total_latency_ms_ = wrap64 (latenciesIn D).sum := by
  have hn : ((count.toNat : Nat) : Int) ≤ INT_MAX := by
    unfold INT_MAX at *
    omega
  have inv0 := started_inv clock name_prefix count.toNat hn
  have hlen0 : evs.length ≤ (started clock name_prefix count.toNat).pending.length := by
    simp [started]
    omega
  obtain ⟨c1, h1, inv1, h3, h4, h5, h6, hheap0, D, hD, hD2⟩ := drain_events clock count evs 0
    (started clock name_prefix count.toNat) inv0 hev hlen0 (by omega)
  obtain ⟨s1, s2, s3, s4, _⟩ := submitsOf_no_other name_prefix count.toNat
  have hheap : c1.heap.length = count.toNat := by simpa [started] using hheap0
  have hD : c1.trace = submitsOf name_prefix count.toNat ++ D := hD
  have hdel : deletedIn c1.trace = deletedIn D := by rw [hD, deletedIn_append, s1]; rfl
  have hlat : latenciesIn c1.trace = latenciesIn D := by rw [hD, latenciesIn_append, s2]; rfl
  have hfail : failuresIn c1.trace = failuresIn D := by rw [hD, failuresIn_append, s3]; simp
  have hdr : drainedIn c1.trace = drainedIn D := by rw [hD, drainedIn_append, s4]; simp
  have hs4 : drainedIn (started clock name_prefix count.toNat).trace = 0 := s4
  have hs2 : latenciesIn (started clock name_prefix count.toNat).trace = [] := s2
  have hdn : drainedIn D = evs.length := by rw [← hdr, h5, hs4]; simp
  have hln : (latenciesIn D).length = evs.countP NextResult.success := by
    rw [← hlat, h6, hs2]; simp
  have hcl := inv1.classified
  have hdd := inv1.drained
  rw [hdel, hlat, hfail] at hcl
  rw [hdel, hdr] at hdd
  have hcnt := List.length_eq_countP_add_countP (p := NextResult.success) evs
  have hcnt2 : evs.countP (fun r => !r.success)
      = evs.countP (fun a => decide ¬NextResult.success a = true) := by
    congr 1
    funext r
    cases r.success <;> rfl
  refine ⟨c1, D, fun rest => by simpa using h1 rest, inv1, hheap, ?_, ?_, hD, hD2, hdn, by omega, hdel, hln, by omega, ?_, ?_⟩
  · simpa [started] using h3
  · simpa [started] using h4
  · rw [inv1.count, hlat, hln]
  · rw [inv1.total, hlat]

/-- C5: in `ProcessResponses`, a drained event `(tag, ok)` whose record `r` is live, with
status `status` and elapsed time `d` (the clock reading taken after `Next`, minus the start
time of the record, in whole milliseconds), is counted as a success exactly when `ok` holds
and the status is ok. Then `success_count_` is incremented and `d` is added to
`total_latency_ms_` (in the arithmetic of `int` and `long long`: exactly `+ 1` and `+ d`
when the results are in range), and nothing is printed. Otherwise both aggregates are
unchanged and the call is reported as failed. In both cases the record is deleted, no call
is started, nothing but the drained call leaves the queue, and the loop goes on from the
state `c1` so reached: it returns `c1` when this was the last expected event; otherwise it
calls `Next` again, and then it blocks when the queue has nothing more, returns `c1` with
the shutdown line when `Next` reports shutdown, and runs the same body on the next event,
returning the state after that event when it was the last expected one. -/
theorem C5_event_classification (clock : Nat → Int) (expected received : Int)
    (rest : List NextResult) (c : Client) (pick : Nat) (ok : Bool) (status : Status)
    (message : String) (tag : Nat) (r : AsyncCallData)
    (hrec : received < expected)
    (hp : c.pending[pick % c.pending.length]? = some tag)
    (hr : c.heap[tag]? = some (some r)) :
    ∃ c1 d, d = duration_cast_ms (clock c.clock_reads - r.start_time) ∧
      receive clock c pick ok status message = .returned c1 ∧
      ProcessResponsesLoop clock expected (.event pick ok status message :: rest) received c
        = ProcessResponsesLoop clock expected rest (received + 1) c1 ∧
      (NextResult.success (.event pick ok status message) = true
        ↔ (ok = true ∧ status.error_code = 0)) ∧
      c1.pending = c.pending.eraseIdx (pick % c.pending.length) ∧
      c1.heap = c.heap.set tag none ∧
      ((ok = true ∧ status.error_code = 0) →
        c1.success_count_ = wrap32 (c.success_count_ + 1) ∧
        c1.total_latency_ms_ = wrap64 (c.total_latency_ms_ + d) ∧
        (INT_MIN ≤ c.success_count_ + 1 → c.success_count_ + 1 ≤ INT_MAX →
          c1.success_count_ = c.success_count_ + 1) ∧
        (LLONG_MIN ≤ c.total_latency_ms_ + d → c.total_latency_ms_ + d ≤ LLONG_MAX →
          c1.total_latency_ms_ = c.total_latency_ms_ + d) ∧
        c1.trace = c.trace ++ [.drained tag ok, .succeeded r.request_id d, .delete tag]) ∧
      (¬ (ok = true ∧ status.error_code = 0) →
        c1.success_count_ = c.success_count_ ∧
        c1.total_latency_ms_ = c.total_latency_ms_ ∧
        c1.trace = c.trace ++
          [.drained tag ok,
            .failed r.request_id
              (if !ok then .operationNotOk
               else .status status.error_code status.error_message) d,
            .delete tag]) ∧
      (¬ received + 1 < expected →
        ProcessResponsesLoop clock expected (.event pick ok status message :: rest) received c
          = .returned c1) ∧
      (received + 1 < expected →
        ProcessResponsesLoop clock expected [.event pick ok status message] received c
          = .waiting c1 ∧
        (∀ rest1,
          ProcessResponsesLoop clock expected
            (.event pick ok status message :: .shutdown :: rest1) received c
            = .returned { c1 with trace := c1.trace ++ [.shutdown] }) ∧
        (∀ pick2 ok2 status2 message2 rest1 c2,
          receive clock c1 pick2 ok2 status2 message2 = .returned c2 →
          ProcessResponsesLoop clock expected
              (.event pick ok status message :: .event pick2 ok2 status2 message2 :: rest1)
              received c
            = ProcessResponsesLoop clock expected rest1 (received + 2) c2 ∧
          (¬ received + 2 < expected →
            ProcessResponsesLoop clock expected
                (.event pick ok status message :: .event pick2 ok2 status2 message2 :: rest1)
                received c
              = .returned c2)) ∧
        (∀ pick2 ok2 status2 message2 rest1,
          receive clock c1 pick2 ok2 status2 message2 = .waiting c1 →
          ProcessResponsesLoop clock expected
              (.event pick ok status message :: .event pick2 ok2 status2 message2 :: rest1)
              received c
            = .waiting c1)) := by
  have hiff : (ok && status.ok) = true ↔ (ok = true ∧ status.error_code = 0) := by
    simp [Status.ok]
  have hstep : ∀ tail, ProcessResponsesLoop clock expected
      (.event pick ok status message :: tail) received c
      = ProcessResponsesLoop clock expected tail (received + 1)
          (drainStep clock c (pick % c.pending.length) tag r ok status) := by
    intro tail
    rw [ProcessResponsesLoop, if_pos hrec, receive_eq hp hr]
  refine ⟨drainStep clock c (pick % c.pending.length) tag r ok status, _, rfl,
    receive_eq hp hr, hstep rest, ?_, rfl, rfl, ?_, ?_, ?_, ?_⟩
  · simpa [NextResult.success] using hiff
  · intro h
    have hs := hiff.mpr h
    refine ⟨by simp [drainStep, hs], by simp [drainStep, hs], ?_, ?_, drainStep_trace_true hs⟩
    · intro h1 h2
      simp only [drainStep, hs, if_true]
      exact wrap32_eq h1 h2
    · intro h1 h2
      simp only [drainStep, hs, if_true]
      exact wrap64_eq h1 h2
  · intro h
    have hs : ¬ (ok && status.ok) = true := fun hs => h (hiff.mp hs)
    exact ⟨by simp [drainStep, hs], by simp [drainStep, hs], drainStep_trace_false hs⟩
  · intro hdone
    rw [hstep rest, loop_done clock hdone]
  · intro hmore
    refine ⟨?_, ?_, ?_, ?_⟩
    · rw [hstep [], ProcessResponsesLoop, if_pos hmore]
    · intro rest1
      rw [hstep (.shutdown :: rest1), ProcessResponsesLoop, if_pos hmore]
    · intro pick2 ok2 status2 message2 rest1 c2 h2
      have hnext : ProcessResponsesLoop clock expected
          (.event pick ok status message :: .event pick2 ok2 status2 message2 :: rest1)
          received c = ProcessResponsesLoop clock expected rest1 (received + 2) c2 := by
        rw [hstep (.event pick2 ok2 status2 message2 :: rest1), ProcessResponsesLoop,
          if_pos hmore, h2]
        simp only
        congr 1
        ring
      exact ⟨hnext, fun hdone => by rw [hnext, loop_done clock hdone]⟩
    · intro pick2 ok2 status2 message2 rest1 h2
      rw [hstep (.event pick2 ok2 status2 message2 :: rest1), ProcessResponsesLoop,
        if_pos hmore, h2]

/-- C5 at a concrete run of the loop: two calls in flight, started at 5 ms and 10 ms; the
second fails at transport level, drained at 15 ms, and then the first succeeds, drained at
20 ms. The failure is reported, leaves the aggregates alone and does not stop the loop; the
success adds 1 and 15 ms; both records are deleted. -/
theorem C5_event_classification_witness :
    ProcessResponsesLoop (fun n => 5000000 * (n : Int)) 2
        [.event 1 false ⟨0, ""⟩ "", .event 0 true ⟨0, ""⟩ "Hello u_0"] 0
        (started (fun n => 5000000 * (n : Int)) "u" 2)
      = .returned
          ⟨1, 15, [none, none], [], 5,
            [.submit 0 0 "u_0", .submit 1 1 "u_1",
              .drained 1 false, .failed 1 .operationNotOk 5, .delete 1,
              .drained 0 true, .succeeded 0 15, .delete 0]⟩ := by
  obtain ⟨c1, d, _, h1, _, _, _, _, _, _, _, hmore⟩ := C5_event_classification
    (fun n => 5000000 * (n : Int)) 2 0 [.event 0 true ⟨0, ""⟩ "Hello u_0"]
    (started (fun n => 5000000 * (n : Int)) "u" 2)
    1 false ⟨0, ""⟩ "" 1 ⟨1, 10000000, "", ⟨0, ""⟩⟩ (by decide) (by decide) (by decide)
  have hc1 : receive (fun n => 5000000 * (n : Int))
      (started (fun n => 5000000 * (n : Int)) "u" 2) 1 false ⟨0, ""⟩ ""
      = .returned
          ⟨0, 0, [some ⟨0, 5000000, "", ⟨0, ""⟩⟩, none], [0], 4,
            [.submit 0 0 "u_0", .submit 1 1 "u_1",
              .drained 1 false, .failed 1 .operationNotOk 5, .delete 1]⟩ := by decide
  rw [hc1] at h1
  simp only [Outcome.returned.injEq] at h1
  subst h1
  exact ((hmore (by decide)).2.2.1 0 true ⟨0, ""⟩ "Hello u_0" [] _ (by decide)).2 (by decide)

/-- C6: for every `count` and every queue that delivers `count` events before any shutdown,
`SendConcurrentRequests` on a fresh client returns; it starts exactly the calls with
request ids `0 .. count - 1`, all before the first event is drained; it drains exactly
`count` events and deletes each of the `count` records exactly once, so that no record is
live and no call is in flight at the end; `success_count_` is the number of events counted
as successes, the number of calls reported as failed is the number of the other events,
the two add up to `count`, and the summary prints `count - success_count_` as the number
of failed requests when it is not zero. -/
theorem C6_client_completeness (clock : Nat → Int) ( name_prefix : String) (count : Int)
    (evs rest : List NextResult) (hmax : count ≤ INT_MAX) (hlen : (evs.length : Int) = count)
    (hev : ∀ r ∈ evs, r ≠ .shutdown) :
    ∃ c sm D,
      SendConcurrentRequests clock (evs ++ rest) name_prefix count .fresh = .returned (c, sm) ∧
      c.trace = submitsOf name_prefix count.toNat ++ D ∧
      (∀ x ∈ D, Action.isSubmit x = false) ∧
      (∀ x ∈ submitsOf name_prefix count.toNat, Action.isDrained x = false) ∧
      drainedIn D = count.toNat ∧
      (deletedIn D).Perm (List.range count.toNat) ∧
      c.pending = [] ∧
      c.heap = List.replicate count.toNat none ∧
      c.success_count_ = (evs.countP NextResult.success : Int) ∧
      failuresIn D = evs.countP (fun r => !r.success) ∧
      c.success_count_ + (failuresIn D : Int) = count ∧
      sm.total_requests = count ∧
      sm.failed_requests
        = (if c.success_count_ < count then some (count - c.success_count_) else none) := by
  obtain ⟨c1, D, h1, inv1, hheap, hpend, _, hD, hD2, hdn, _, hdel, hln, hfl, hsc, _⟩ :=
    drained_batch clock name_prefix count evs hmax (le_of_eq hlen) hev
  have hn : evs.length = count.toNat := by omega
  have hrun : ProcessResponses clock (evs ++ rest) count (started clock name_prefix count.toNat)
      = .returned c1 := by
    unfold ProcessResponses
    rw [h1 rest, loop_done clock (by omega)]
  have hp0 : c1.pending = [] := List.length_eq_zero.mp (by omega)
  have hperm : (deletedIn D).Perm (List.range count.toNat) := by
    have := inv1.perm
    rwa [hp0, List.append_nil, hdel, hheap] at this
  refine ⟨{ c1 with clock_reads := c1.clock_reads + 1 },
    summarize { c1 with clock_reads := c1.clock_reads + 1 } count
      (duration_cast_ms (clock c1.clock_reads - clock 0)), D, ?_, hD, hD2, ?_, by omega,
    hperm, hp0, ?_, hsc, hfl, ?_, rfl, rfl⟩
  · rw [send_fresh, hrun]
  · intro x hx
    simp only [submitsOf, List.mem_map] at hx
    obtain ⟨i, _, rfl⟩ := hx
    rfl
  · apply List.ext_getElem?
    intro m
    by_cases hm : m < count.toNat
    · have hmem : m ∈ deletedIn c1.trace := by
        rw [hdel]
        exact hperm.mem_iff.mpr (List.mem_range.mpr hm)
      simp [inv1.dead m hmem, hm]
    · rw [List.getElem?_eq_none (by simp only; omega), List.getElem?_eq_none (by simp; omega)]
  · have hcnt := List.length_eq_countP_add_countP (p := NextResult.success) evs
    have hcnt2 : evs.countP (fun r => !r.success)
        = evs.countP (fun a => decide ¬NextResult.success a = true) := by
      congr 1
      funext r
      cases r.success <;> rfl
    simp only
    rw [hsc, hfl, hcnt2, ← hlen]
    omega

/-- C6 at a concrete batch: two calls, the first fails at transport level and the second
completes with a status that is not ok, in that order of arrival. -/
theorem C6_client_completeness_witness :
    ∃ c sm D,
      SendConcurrentRequests (fun n => 1000000 * (n : Int))
        ([.event 1 false ⟨0, ""⟩ "", .event 0 true ⟨14, "unavailable"⟩ ""] ++ [])
        "u" 2 .fresh = .returned (c, sm) ∧
      c.trace = submitsOf "u" 2 ++ D ∧ c.heap = [none, none] ∧ c.success_count_ = 0 ∧
      sm.failed_requests = some 2 := by
  obtain ⟨c, sm, D, h1, h2, _, _, _, _, _, h3, h4, _, _, _, h5⟩ := C6_client_completeness
    (fun n => 1000000 * (n : Int)) "u" 2
    [.event 1 false ⟨0, ""⟩ "", .event 0 true ⟨14, "unavailable"⟩ ""] [] (by decide) (by decide)
    (by decide)
  have h6 : c.success_count_ = 0 := by rw [h4]; decide
  refine ⟨c, sm, D, h1, h2, h3, h6, ?_⟩
  rw [h5, h6]
  decide

/-- A batch interrupted by a shutdown after `evs`: the run returns, whatever follows the
shutdown in the script, with the state reached after `evs` plus the shutdown line. -/
theorem interrupted_batch (clock : Nat → Int) ( name_prefix : String) (count : Int)
    (evs : List NextResult) (hmax : count ≤ INT_MAX) (hk : (evs.length : Int) < count)
    (hev : ∀ r ∈ evs, r ≠ .shutdown) :
    ∃ c1 D, (∀ rest,
        SendConcurrentRequests clock (evs ++ .shutdown :: rest) name_prefix count .fresh
          = .returned
            ({ c1 with trace := c1.trace ++ [.shutdown], clock_reads := c1.clock_reads + 1 },
              summarize c1 count (duration_cast_ms (clock c1.clock_reads - clock 0)))) ∧
      Inv clock c1 ∧ c1.heap.length = count.toNat ∧
      c1.pending.length + evs.length = count.toNat ∧
      c1.clock_reads = count.toNat + 1 + evs.length ∧
      c1.trace = submitsOf name_prefix count.toNat ++ D ∧
      drainedIn D = evs.length ∧ (deletedIn D).length = evs.length ∧
      deletedIn c1.trace = deletedIn D ∧
      (latenciesIn D).length = evs.countP NextResult.success ∧
      c1.success_count_ = (evs.countP NextResult.success : Int) ∧
      c1.total_latency_ms_ = wrap64 (latenciesIn D).sum := by
  obtain ⟨c1, D, h1, inv1, hheap, hpend, hclk, hD, _, hdn, hdl, hdel, hln, _, hsc, htot⟩ :=
    drained_batch clock name_prefix count evs hmax (le_of_lt hk) hev
  refine ⟨c1, D, ?_, inv1, hheap, hpend, hclk, hD, hdn, hdl, hdel, hln, hsc, htot⟩
  intro rest
  have hrun : ProcessResponses clock (evs ++ .shutdown :: rest) count
      (started clock name_prefix count.toNat)
      = .returned { c1 with trace := c1.trace ++ [.shutdown] } := by
    unfold ProcessResponses
    rw [h1 (.shutdown :: rest), ProcessResponsesLoop, if_pos hk]
  rw [send_fresh, hrun]
  rfl

/-- C8 fails on the shutdown path: with two calls issued, one event delivered and then a
shutdown, `SendConcurrentRequests` returns while the record of the second call is still
live; and in general, after `k < count` events and a shutdown, the `count - k` records
still in flight are live and have never been deleted when the method returns. -/
theorem C8_records_leak_on_shutdown :
    SendConcurrentRequests (fun n => 1000000 * (n : Int))
        [.event 0 true ⟨0, ""⟩ "Hello u_0", .shutdown] "u" 2 .fresh
      = .returned
          (⟨1, 2, [none, some ⟨1, 2000000, "", ⟨0, ""⟩⟩], [1], 5,
              [.submit 0 0 "u_0", .submit 1 1 "u_1", .drained 0 true, .succeeded 0 2,
                .delete 0, .shutdown]⟩,
            ⟨4, 2, ⟨100, 2⟩, some 2, some ⟨1000, 4⟩, some 1⟩) ∧
      ∀ (clock : Nat → Int) ( name_prefix : String) (count : Int) (evs rest : List NextResult),
        count ≤ INT_MAX → (evs.length : Int) < count → (∀ r ∈ evs, r ≠ .shutdown) →
        ∃ c sm,
          SendConcurrentRequests clock (evs ++ .shutdown :: rest) name_prefix count .fresh
            = .returned (c, sm) ∧
          c.pending.length = count.toNat - evs.length ∧ 0 < c.pending.length ∧
          ∀ tag ∈ c.pending, (∃ r, c.heap[tag]? = some (some r)) ∧
            Action.delete tag ∉ c.trace := by
  refine ⟨by decide, ?_⟩
  intro clock name_prefix count evs rest hmax hk hev
  obtain ⟨c1, D, h1, inv1, _, hpend, _, _, _, _, _, _, _, _⟩ :=
    interrupted_batch clock name_prefix count evs hmax hk hev
  refine ⟨_, _, h1 rest, by simp only; omega, by simp only; omega, ?_⟩
  intro tag htag
  have htag1 : tag ∈ c1.pending := htag
  obtain ⟨r, hr, _, _⟩ := inv1.live tag htag1
  refine ⟨⟨r, hr⟩, ?_⟩
  have hnd : (deletedIn c1.trace ++ c1.pending).Nodup :=
    inv1.perm.nodup_iff.mpr (List.nodup_range _)
  have hdis := List.disjoint_of_nodup_append hnd
  intro hmem
  have hmem1 : Action.delete tag ∈ c1.trace := by
    simp only [List.mem_append, List.mem_singleton] at hmem
    rcases hmem with hmem | hmem
    · exact hmem
    · cases hmem
  have : tag ∈ deletedIn c1.trace := by
    unfold deletedIn
    exact List.mem_filterMap.mpr ⟨_, hmem1, rfl⟩
  exact hdis this htag1

/-- C9: for `count = 0` on a fresh client, `SendConcurrentRequests` returns without starting
a call, without taking an event from the queue (the script is not looked at) and without
touching a record; the summary reports 0 requests, `success_count_` is 0, and the lines of
the average latency and of the requests per second are not printed, so neither of their
divisions is evaluated. (The success-rate line is printed, from `0 * 100.0 / 0`.) -/
theorem C9_empty_batch (clock : Nat → Int) (script : List NextResult) ( name_prefix : String) :
    SendConcurrentRequests clock script name_prefix 0 .fresh
      = .returned
          (⟨0, 0, [], [], 2, []⟩,
            { total_time := duration_cast_ms (clock 1 - clock 0)
              total_requests := 0
              success_rate := ⟨0, 0⟩
              average_latency := none
              requests_per_second := none
              failed_requests := none }) := by
  rw [send_fresh]
  cases script <;> rfl

/-- C10, as the code behaves: for every batch on a fresh client that returns with
`success_count_ > 0`, `success_count_` is the number of calls counted as successes and
`total_latency_ms_` is the sum, in the arithmetic of `long long`, of their elapsed times,
each the whole number of milliseconds (truncated) between the clock reading `id + 1`, taken
when call `id` was started and kept in its record, and a reading taken in the drain phase;
the average latency printed is the integer quotient, truncated toward zero, of that sum by
`success_count_`, which is the mean only when the sum is a multiple of `success_count_`;
the requests per second printed are `success_count_ * 1000.0` divided by the total duration
in whole milliseconds, from the first clock reading to the last: the quotient when that
duration is not zero, and a division by zero (no finite value) when it is zero. -/
theorem C10_aggregate_arithmetic (clock : Nat → Int) (script : List NextResult)
    ( name_prefix : String) (count : Int) (c : Client) (sm : Summary) (hmax : count ≤ INT_MAX)
    (hrun : SendConcurrentRequests clock script name_prefix count .fresh = .returned (c, sm))
    (hpos : 0 < c.success_count_) :
    c.success_count_ = ((latenciesIn c.trace).length : Int) ∧
      c.total_latency_ms_ = wrap64 (latenciesIn c.trace).sum ∧
      (∀ i < count.toNat, (started clock name_prefix count.toNat).heap[i]?
        = some (some ⟨(i : Int), clock (i + 1), "", ⟨0, ""⟩⟩)) ∧
      (∀ id took, Action.succeeded id took ∈ c.trace →
        0 ≤ id ∧ id < count ∧ ∃ k, count.toNat < k ∧ k + 1 < c.clock_reads ∧
          took = duration_cast_ms (clock k - clock (id.toNat + 1))) ∧
      sm.average_latency
        = some (Int.tdiv (wrap64 (latenciesIn c.trace).sum) (latenciesIn c.trace).length) ∧
      (LLONG_MIN ≤ (latenciesIn c.trace).sum → (latenciesIn c.trace).sum ≤ LLONG_MAX →
        sm.average_latency
          = some (Int.tdiv (latenciesIn c.trace).sum (latenciesIn c.trace).length)) ∧
      sm.total_time = duration_cast_ms (clock (c.clock_reads - 1) - clock 0) ∧
      sm.requests_per_second = some ⟨((latenciesIn c.trace).length : Int) * 1000, sm.total_time⟩ ∧
      (sm.total_time ≠ 0 → ∃ q, sm.requests_per_second = some q ∧
        q.value = some ((((latenciesIn c.trace).length : Int) : ℚ) * 1000 / (sm.total_time : ℚ)))
      ∧
      (sm.total_time = 0 → ∃ q, sm.requests_per_second = some q ∧ q.den = 0 ∧ 0 < q.num ∧
        q.value = none) ∧
      (0 ≤ (latenciesIn c.trace).sum → (latenciesIn c.trace).sum ≤ LLONG_MAX →
        ∃ avg : Int, sm.average_latency = some avg ∧
          avg * ((latenciesIn c.trace).length : Int) ≤ (latenciesIn c.trace).sum ∧
          (latenciesIn c.trace).sum < (avg + 1) * ((latenciesIn c.trace).length : Int) ∧
          (((latenciesIn c.trace).length : Int) ∣ (latenciesIn c.trace).sum →
            (avg : ℚ) = ((latenciesIn c.trace).sum : ℚ)
              / (((latenciesIn c.trace).length : Int) : ℚ)))
    := by
  obtain ⟨c2, hp, hc, hsm⟩ := send_fresh_returned hrun
  have hn : ((count.toNat : Nat) : Int) ≤ INT_MAX := by
    unfold INT_MAX at *
    omega
  obtain ⟨inv2, hheap, _⟩ := loop_inv clock count script 0 _ c2
    (started_inv clock name_prefix count.toNat hn) hp
  have hheap2 : c2.heap.length = count.toNat := by simpa [started] using hheap
  have htr : c.trace = c2.trace := by rw [hc]
  have hcnt : c.success_count_ = ((latenciesIn c.trace).length : Int) := by
    rw [htr, hc]; exact inv2.count
  have htot : c.total_latency_ms_ = wrap64 (latenciesIn c.trace).sum := by
    rw [htr, hc]; exact inv2.total
  have havg : sm.average_latency
      = some (Int.tdiv (wrap64 (latenciesIn c.trace).sum) (latenciesIn c.trace).length) := by
    rw [hsm]
    simp only [summarize, hpos, gt_iff_lt, if_true]
    rw [← htot, ← hcnt]
  have htime : sm.total_time = duration_cast_ms (clock (c.clock_reads - 1) - clock 0) := by
    rw [hsm, hc]
    rfl
  have hrps : sm.requests_per_second
      = some ⟨((latenciesIn c.trace).length : Int) * 1000, sm.total_time⟩ := by
    rw [hsm]
    simp only [summarize, hpos, gt_iff_lt, if_true]
    rw [← hcnt]
  have hlenpos : (0 : Int) < ((latenciesIn c.trace).length : Int) := by rw [← hcnt]; exact hpos
  refine ⟨hcnt, htot, ?_, ?_, havg, ?_, htime, hrps, ?_, ?_, ?_⟩
  · intro i hi
    simp [started, hi]
  · intro id took hin
    rw [htr] at hin
    obtain ⟨h1, h2, k, h3, h4, h5⟩ := inv2.timed id took hin
    refine ⟨h1, by omega, k, by omega, ?_, h5⟩
    rw [hc]
    simp only
    omega
  · intro h1 h2
    rw [havg, wrap64_eq h1 h2]
  · intro hne
    refine ⟨_, hrps, ?_⟩
    simp [DoubleQuot.value, hne]
  · intro hz
    refine ⟨_, hrps, hz, by simp only; omega, ?_⟩
    simp [DoubleQuot.value, hz]
  · intro h0 h1
    refine ⟨_, by rw [havg, wrap64_eq (by unfold LLONG_MIN; omega) h1], ?_, ?_, ?_⟩
    · rw [Int.tdiv_eq_ediv h0 (le_of_lt hlenpos)]
      exact Int.ediv_mul_le _ (ne_of_gt hlenpos)
    · rw [Int.tdiv_eq_ediv h0 (le_of_lt hlenpos)]
      exact Int.lt_ediv_add_one_mul_self _ hlenpos
    · intro hdvd
      rw [Int.tdiv_eq_ediv h0 (le_of_lt hlenpos)]
      have hne : ((((latenciesIn c.trace).length : Int)) : ℚ) ≠ 0 := by
        exact_mod_cast ne_of_gt hlenpos
      rw [eq_div_iff hne]
      exact_mod_cast Int.ediv_mul_cancel hdvd

/-- C10 at a concrete batch: two calls, both successful, with elapsed times 2 ms and 3 ms
and a total duration of 6 ms: the average latency printed is 2. -/
theorem C10_aggregate_arithmetic_witness :
    ∃ c sm,
      SendConcurrentRequests
        (fun n => [0, 1000000, 2000000, 3000000, 5000000, 6000000].getD n 0)
        [.event 0 true ⟨0, ""⟩ "Hello u_0", .event 0 true ⟨0, ""⟩ "Hello u_1"] "u" 2 .fresh
        = .returned (c, sm) ∧
      latenciesIn c.trace = [2, 3] ∧ sm.average_latency = some 2 ∧
      sm.requests_per_second = some ⟨2000, 6⟩ := by
  have hrun : SendConcurrentRequests
      (fun n => [0, 1000000, 2000000, 3000000, 5000000, 6000000].getD n 0)
      [.event 0 true ⟨0, ""⟩ "Hello u_0", .event 0 true ⟨0, ""⟩ "Hello u_1"] "u" 2 .fresh
      = .returned
          (⟨2, 5, [none, none], [], 6,
              [.submit 0 0 "u_0", .submit 1 1 "u_1", .drained 0 true, .succeeded 0 2,
                .delete 0, .drained 1 true, .succeeded 1 3, .delete 1]⟩,
            ⟨6, 2, ⟨200, 2⟩, some 2, some ⟨2000, 6⟩, none⟩) := by decide
  obtain ⟨_, _, _, _, h4, _, _, h7, _, _, _⟩ := C10_aggregate_arithmetic _ _ _ _ _ _ (by decide)
    hrun (by decide)
  exact ⟨_, _, hrun, rfl, by rw [h4]; rfl, by rw [h7]; rfl⟩

/-- C10 fails as stated. With two successful calls of 2 ms and 3 ms the average latency
printed is 2, which is not the mean 5/2 of the per-success latencies; and when the whole
batch takes less than a millisecond the requests per second are computed by a division by
zero, so they are not the number of successes divided by the wall time. -/
theorem C10_mean_is_truncated_counterexample :
    (SendConcurrentRequests
        (fun n => [0, 1000000, 2000000, 3000000, 5000000, 6000000].getD n 0)
        [.event 0 true ⟨0, ""⟩ "Hello u_0", .event 0 true ⟨0, ""⟩ "Hello u_1"] "u" 2 .fresh
        = .returned
            (⟨2, 5, [none, none], [], 6,
                [.submit 0 0 "u_0", .submit 1 1 "u_1", .drained 0 true, .succeeded 0 2,
                  .delete 0, .drained 1 true, .succeeded 1 3, .delete 1]⟩,
              ⟨6, 2, ⟨200, 2⟩, some 2, some ⟨2000, 6⟩, none⟩) ∧
      ((2 : Int) : ℚ) ≠ (([2, 3] : List Int).sum : ℚ) / ((2 : Int) : ℚ)) ∧
      (SendConcurrentRequests (fun _ => 0) [.event 0 true ⟨0, ""⟩ "Hello u_0"] "u" 1 .fresh
        = .returned
            (⟨1, 0, [none], [], 4,
                [.submit 0 0 "u_0", .drained 0 true, .succeeded 0 0, .delete 0]⟩,
              ⟨0, 1, ⟨100, 1⟩, some 0, some ⟨1000, 0⟩, none⟩) ∧
        DoubleQuot.value ⟨1000, 0⟩ = none) := by
  refine ⟨⟨by decide, ?_⟩, by decide, ?_⟩
  · norm_num
  · simp [DoubleQuot.value]

end GreeterClient
